import Mathlib

/-!
Verification development for the SEMNAN CUDA solver (`semnan_cuda.cpp`).

The file shallowly embeds the host-side logic of the `SEMNANSolver` class:

* `make_structures` (graph compilation: layering, parent/child CSR arrays,
  latent presence ranges, latent neighbor sets) over a boolean structure
  matrix, modelled as computable functions on lists;
* the loss evaluator and the gradient-seed step
  (`kullback_leibler_proxy_loss`, `kullback_leibler_loss`,
  `set_sample_covariance`, `kullback_leibler_loss_backward`) over real
  matrices, with the lazily cached sample-covariance inverse and
  log-determinant modelled as `Option` fields of the solver state;
* the constructor-time shape/precision validation (`init_parameters`,
  `set_sample_covariance` checks) at the level of tensor descriptors
  (dimension lists), with the tensor runtime's error kinds made explicit.

The CUDA kernels themselves (`semnan_cuda_forward` / `semnan_cuda_backward`,
declared in `device_data.h`) are not part of the visible sources and are not
modelled; all theorems below concern the host-side logic only.
-/

namespace SEMNAN

/-- Modelled from the spec: `SEMNANLayerData` is declared in `device_data.h`,
which is not among the visible sources. Its shape is reconstructed from its
uses in `semnan_cuda.cpp` (constructor `SEMNANLayerData(idx, c)`, fields
`idx`, `num`, `lat_width`) and from the spec's layer record ("index, count of
visible nodes assigned, and latent width"; "layer 0 is reserved
empty/sentinel", so the default-constructed sentinel has all fields zero). -/
structure LayerData where
  idx : Nat
  first : Nat
  num : Nat
  latWidth : Nat
deriving DecidableEq

instance : Inhabited LayerData := ⟨⟨0, 0, 0, 0⟩⟩

/-- State of the `make_structures` main loop (`semnan_cuda.cpp` lines
122-159): the scalar layer boundary marker `layer_max`, the growing
`layers_vec`, the per-child parent lists `parents_vec`, the per-layer child
buckets `children_vec`, the per-latent `latent_presence_range` (pairs of
`int32`, initialized to `(-1, -1)`), and the running `edge_count`. -/
structure CompState where
  layerMax : Int
  layers : List LayerData
  parentsVec : List (List Int)
  childrenVec : List (List (List Nat))
  presence : List (Int × Int)
  edgeCount : Nat
deriving DecidableEq

/-- Replace the last element of a list by `f` of it (C++ `vec.back()` update). -/
def updateLast {α : Type} (f : α → α) : List α → List α
  | [] => []
  | [a] => [f a]
  | a :: b :: rest => a :: updateLast f (b :: rest)

/-- Parents of visible node `c`: the C++ scan `for (p = -latent_size;
p < visible_size; p++) if (structure[p + latent_size][c])`, in ascending
order of the signed parent index `p` (latents occupy `[-L, 0)`). `S r c` is
entry `structure[r][c]` of the boolean structure matrix. -/
def parentsOfChild (L V : Nat) (S : Nat → Nat → Bool) (c : Nat) : List Int :=
  ((List.range (L + V)).filter (fun r => S r c)).map (fun (r : Nat) => (r : Int) - (L : Int))

/-- First inner loop over the parents of child `c` (lines 130-142): push each
parent onto `parents_vec[c]`, count the edge, and whenever a parent index is
not strictly below `layer_max`, advance the marker to `c` and append a fresh
layer record `SEMNANLayerData(layers_vec.size(), c)` together with a fresh
`children_vec` bucket. -/
def scanParents (tot c : Nat) : CompState → List Int → CompState
  | st, [] => st
  | st, p :: ps =>
      if st.layerMax ≤ p then
        scanParents tot c
          { st with
            parentsVec := st.parentsVec.set c ((st.parentsVec.getD c []) ++ [p])
            edgeCount := st.edgeCount + 1
            layerMax := (c : Int)
            layers := st.layers ++ [⟨st.layers.length, c, 0, 0⟩]
            childrenVec := st.childrenVec ++ [List.replicate tot []] } ps
      else
        scanParents tot c
          { st with
            parentsVec := st.parentsVec.set c ((st.parentsVec.getD c []) ++ [p])
            edgeCount := st.edgeCount + 1 } ps

/-- Second inner loop over the parents of child `c` (lines 144-156): for a
latent parent, extend its presence range to `layers_vec.back().idx - 1`
(setting both endpoints on first discovery, only the upper endpoint
afterwards), and append `c` to the parent's bucket of the current layer. -/
def presUpdate (old : Int × Int) (cur : Int) : Int × Int :=
  if old.1 = -1 then (cur, cur) else (old.1, cur)

def recordParents (L c : Nat) : CompState → List Int → CompState
  | st, [] => st
  | st, p :: ps =>
      recordParents L c
        { st with
          presence :=
            if p < 0 then
              st.presence.set (p + (L : Int)).toNat
                (presUpdate (st.presence.getD (p + (L : Int)).toNat (-1, -1))
                  (((st.layers.getLastD default).idx : Int) - 1))
            else st.presence
          childrenVec :=
            updateLast
              (fun bucket =>
                bucket.set (p + (L : Int)).toNat
                  ((bucket.getD (p + (L : Int)).toNat []) ++ [c]))
              st.childrenVec } ps

/-- One iteration of the outer loop over visible nodes (lines 129-159): both
parent scans followed by `layers_vec.back().num++`. -/
def childStep (L V tot : Nat) (S : Nat → Nat → Bool) (st : CompState) (c : Nat) : CompState :=
  let ps := parentsOfChild L V S c
  let stA := scanParents tot c st ps
  let stB := recordParents L c stA ps
  { stB with layers := updateLast (fun ld => { ld with num := ld.num + 1 }) stB.layers }

/-- Initial compilation state (lines 122-127): `layer_max = -1`, `layers_vec`
holding the default sentinel (from `resize(1)`) followed by
`SEMNANLayerData(1, 0)`, one initial `children_vec` bucket, presence ranges
all `(-1, -1)`, zero edges. -/
def initState (L V tot : Nat) : CompState :=
  { layerMax := -1
    layers := [default, ⟨1, 0, 0, 0⟩]
    parentsVec := List.replicate V []
    childrenVec := [List.replicate tot []]
    presence := List.replicate L (-1, -1)
    edgeCount := 0 }

/-- Compilation state after processing visible nodes `0 .. c-1`. -/
def compileAux (L V : Nat) (S : Nat → Nat → Bool) : Nat → CompState
  | 0 => initState L V (L + V)
  | c + 1 => childStep L V (L + V) S (compileAux L V S c) c

/-- Final state of the `make_structures` main loop. -/
def compile (L V : Nat) (S : Nat → Nat → Bool) : CompState :=
  compileAux L V S V

/-- Index (position in `layers_vec`) of the layer that visible node `c` is
assigned to: the last layer at the moment `layers_vec.back().num++` runs for
`c`. -/
def layerOf (L V : Nat) (S : Nat → Nat → Bool) (c : Nat) : Nat :=
  (compileAux L V S (c + 1)).layers.length - 1

/-- CSR assembly for the parents data (lines 161-170): flatten
`parents_vec` and record the running offset after each visible node;
`parents_bases[0]` keeps its zero initialization. -/
def buildParents (pv : List (List Int)) : List Int × List Nat :=
  pv.foldl (fun acc l => (acc.1 ++ l, acc.2 ++ [(acc.1 ++ l).length])) ([], [0])

/-- CSR assembly for the children data (lines 172-185): for each node row,
record the offset before the row, then append the node's bucket of every
layer, recording the offset after each. The 2-D `children_bases` array is
modelled flattened in row-major order. -/
def buildChildren (tot : Nat) (cv : List (List (List Nat))) : List Nat × List Nat :=
  (List.range tot).foldl
    (fun acc r =>
      cv.foldl
        (fun acc2 bucket =>
          ((acc2.1 ++ bucket.getD r []), acc2.2 ++ [(acc2.1 ++ bucket.getD r []).length]))
        (acc.1, acc.2 ++ [acc.1.length]))
    ([], [])

/-- Bounds-checked write used to model `latent_neighbors_vec[l].push_back(v)`
(line 194): `none` when the signed layer index `l` is outside the table. -/
def pushAt (vec : List (List Int)) (l : Int) (v : Int) : Option (List (List Int)) :=
  if 0 ≤ l ∧ l.toNat < vec.length then
    some (vec.set l.toNat ((vec.getD l.toNat []) ++ [v]))
  else
    none

/-- The loop `for (l = range.first; l <= range.second; l++)` pushing latent
`v` into every layer bucket of its presence range, counted down by the number
of remaining iterations. -/
def pushRangeAux (v : Int) : Nat → Int → List (List Int) → Option (List (List Int))
  | 0, _, vec => some vec
  | n + 1, l, vec => (pushAt vec l v).bind (pushRangeAux v n (l + 1))

/-- Latent-neighbor table construction (lines 187-197): for every latent `v`
(ascending, as signed index `v - L`), walk its presence range and append it
to each layer's bucket; out-of-bounds layer indices make the whole
construction fail. The table has `num_layers()` buckets. -/
def latentNeighborsVec (L numLayers : Nat) (presence : List (Int × Int)) :
    Option (List (List Int)) :=
  (List.range L).foldlM
    (fun vec i =>
      let pr := presence.getD i (-1, -1)
      pushRangeAux ((i : Int) - (L : Int)) (pr.2 + 1 - pr.1).toNat pr.1 vec)
    (List.replicate numLayers [])

/-- Compiled output: the final loop state, the CSR arrays, the latent
neighbor table, and the layer records with `lat_width` filled in from the
bucket sizes (lines 199-209); `none` when the latent-neighbor construction
indexes out of bounds. -/
structure Compiled where
  state : CompState
  parents : List Int
  parentsBases : List Nat
  children : List Nat
  childrenBases : List Nat
  latentNeighbors : List (List Int)
  layers : List LayerData
deriving DecidableEq

/-- The whole of `make_structures` (lines 115-210). -/
def make_structures (L V : Nat) (S : Nat → Nat → Bool) : Option Compiled :=
  let st := compile L V S
  let pb := buildParents st.parentsVec
  let cb := buildChildren (L + V) st.childrenVec
  (latentNeighborsVec L st.layers.length st.presence).map fun vec =>
    { state := st
      parents := pb.1
      parentsBases := pb.2
      children := cb.1
      childrenBases := cb.2
      latentNeighbors := vec
      layers :=
        (List.range st.layers.length).map fun l =>
          { st.layers.getD l default with latWidth := (vec.getD l []).length } }

/-- Positions of layer records are their `idx` fields. -/
def layersIdxOk (st : CompState) : Prop :=
  ∀ i, i < st.layers.length → (st.layers.getD i default).idx = i

/-- Specification of a latent's presence range in terms of its children
processed so far: `(-1, -1)` while it has none, otherwise one less than the
layer indices of its first and last child. -/
def presSpec (L V : Nat) (S : Nat → Nat → Bool) (v c : Nat) : Int × Int :=
  let l := (List.range c).filter (fun d => S v d)
  if l = [] then (-1, -1)
  else ((layerOf L V S (l.headD 0) : Int) - 1, (layerOf L V S (l.getLastD 0) : Int) - 1)

/-- One fold step of the CSR assembly loops: append the next item run to the
flat array and record the new offset. -/
def csrStep {A : Type} (acc : List A × List Nat) (l : List A) : List A × List Nat :=
  (acc.1 ++ l, acc.2 ++ [(acc.1 ++ l).length])

/-- Concrete structure matrix used by witnesses: one latent node with an edge
to visible node 0, and an edge from visible node 0 to visible node 1
(`L = 1`, `V = 2`). -/
def exampleStructureA : Nat → Nat → Bool := fun r c =>
  (r == 0 && c == 0) || (r == 1 && c == 1)

/-- Concrete structure matrix with a childless latent node (`L = 1`, `V = 1`,
no edges at all). -/
def exampleStructureB : Nat → Nat → Bool := fun _ _ => false

/-- Concrete structure matrix with a single edge latent 0 → visible 0
(`L = 1`, `V = 1`). -/
def exampleStructureC : Nat → Nat → Bool := fun r c => r == 0 && c == 0

/-- Total number of edges (true entries) of the structure matrix. -/
def totalEdgeCount (L V : Nat) (S : Nat → Nat → Bool) : Nat :=
  ((List.range V).map (fun c => ((List.range (L + V)).filter (fun r => S r c)).length)).sum

/-- Invariant of the `make_structures` main loop after processing visible
nodes `0 .. c-1`: the layer list keeps the two initial records; record
positions equal their `idx` fields; the presence table keeps length `L`;
`parents_vec` holds exactly the parents of the processed nodes; the boundary
marker is strictly below `c`; every processed node's layer exists (`layerF`)
and nodes strictly below the marker sit strictly below the last layer
(`layerE`); each record's `num` counts the nodes assigned to it; each
presence entry matches `presSpec`; `edge_count` sums the processed parent
list lengths. -/
structure Inv (L V : Nat) (S : Nat → Nat → Bool) (c : Nat) (st : CompState) : Prop where
  len2 : 2 ≤ st.layers.length
  idxOk : layersIdxOk st
  presLen : st.presence.length = L
  parVec : st.parentsVec
    = ((List.range c).map (parentsOfChild L V S)) ++ List.replicate (V - c) []
  lmaxUB : st.layerMax < (c : Int)
  layerF : ∀ d, d < c → layerOf L V S d + 1 ≤ st.layers.length
  layerE : ∀ d, d < c → (d : Int) < st.layerMax → layerOf L V S d + 2 ≤ st.layers.length
  nums : ∀ i, i < st.layers.length →
    (st.layers.getD i default).num
      = ((List.range c).filter (fun d => layerOf L V S d = i)).length
  pres : ∀ v, v < L → st.presence.getD v (-1, -1) = presSpec L V S v c
  edge : st.edgeCount
    = (((List.range c).map (fun d => (parentsOfChild L V S d).length)).sum)

/-! ## Value-level solver state: losses, caches, gradient seed -/

namespace Val

open scoped Matrix

/-- Numeric state of a `SEMNANSolver` with `L` latent and `V` visible nodes:
the covariance buffer (shape `(L+V) × V`, from `zeros_like(weights)` at line
98), the two covariance-gradient buffers (line 106), the sample covariance
(unset before the first `set_sample_covariance`), the two lazy caches
`sample_covariance_inv` / `sample_covariance_logdet` (`none` models an empty
tensor, `numel() == 0`), and the total layer count. Weights and lambda play
no role in the host-side loss logic and are omitted. -/
structure SolverState (L V : Nat) where
  covariance : Matrix (Fin (L + V)) (Fin V) ℝ
  covarianceGrad : Fin 2 → Matrix (Fin (L + V)) (Fin V) ℝ
  sampleCovariance : Option (Matrix (Fin V) (Fin V) ℝ)
  sampleCovarianceInv : Option (Matrix (Fin V) (Fin V) ℝ)
  sampleCovarianceLogdet : Option ℝ
  numLayers : Nat

variable {L V : Nat}

/-- The visible covariance: the view `covariance.index({Slice(latent_size,
None), Slice()})` (lines 100-103), i.e. rows `L .. L+V-1` of the same
storage — not a separate buffer. -/
def visible_covariance (s : SolverState L V) : Matrix (Fin V) (Fin V) ℝ :=
  Matrix.of fun i j => s.covariance (Fin.natAdd L i) j

/-- Write one entry of the covariance buffer (models an in-place mutation of
the backing storage). -/
def updateCovariance (s : SolverState L V) (r : Fin (L + V)) (j : Fin V) (x : ℝ) :
    SolverState L V :=
  { s with covariance := Matrix.of fun r' j' => if r' = r ∧ j' = j then x else s.covariance r' j' }

/-- Model of `torch::logdet`: the real logarithm of the determinant (the
numeric failure modes of nonpositive determinants propagate to the caller in
the original and are outside this model, per spec §7). -/
noncomputable def torchLogdet {n : Nat} (M : Matrix (Fin n) (Fin n) ℝ) : ℝ :=
  Real.log M.det

/-- Lines 287-293: return the cached inverse if the cache tensor is nonempty,
else compute `torch::inverse(sample_covariance)` and fill the cache. `none`
when no sample covariance has been set (the original would fail on an
undefined tensor). -/
noncomputable def get_sample_covariance_inv (s : SolverState L V) :
    Option (Matrix (Fin V) (Fin V) ℝ × SolverState L V) :=
  match s.sampleCovarianceInv with
  | some M => some (M, s)
  | none => s.sampleCovariance.map fun S => (S⁻¹, { s with sampleCovarianceInv := some S⁻¹ })

/-- Lines 295-301: the lazily cached `torch::logdet(sample_covariance)`. -/
noncomputable def get_sample_covariance_logdet (s : SolverState L V) :
    Option (ℝ × SolverState L V) :=
  match s.sampleCovarianceLogdet with
  | some d => some (d, s)
  | none =>
      s.sampleCovariance.map fun S =>
        (torchLogdet S, { s with sampleCovarianceLogdet := some (torchLogdet S) })

/-- Lines 251-256: `trace(mm(get_sample_covariance_inv(), visible_covariance))
- logdet(visible_covariance)`, returned together with the (possibly cache-
filled) state. -/
noncomputable def kullback_leibler_proxy_loss (s : SolverState L V) :
    Option (ℝ × SolverState L V) :=
  (get_sample_covariance_inv s).map fun x =>
    ((x.1 * visible_covariance x.2).trace - torchLogdet (visible_covariance x.2), x.2)

/-- Lines 258-266: `(proxy_loss - visible_size + get_sample_covariance_logdet()) / 2`. -/
noncomputable def kullback_leibler_loss (s : SolverState L V) :
    Option (ℝ × SolverState L V) :=
  (kullback_leibler_proxy_loss s).bind fun x =>
    (get_sample_covariance_logdet x.2).map fun y =>
      ((x.1 - (V : ℝ) + y.1) / 2, y.2)

/-- Lines 277-285 (value level; the shape checks live in the `Shape` model):
`sample_covariance` is replaced, and — exactly as in the source — the
`sample_covariance_inv` / `sample_covariance_logdet` caches are left as they
are. -/
def set_sample_covariance (s : SolverState L V) (M : Matrix (Fin V) (Fin V) ℝ) :
    SolverState L V :=
  { s with sampleCovariance := some M }

/-- Lines 268-274: the gradient-seed step of `backward()`. The buffer
`covariance.mutable_grad()[(num_layers() + 1) % 2]` receives, on its visible
rows (the `visible_covariance.mutable_grad()` view), the value
`get_sample_covariance_inv() - torch::inverse(visible_covariance)`; every
other entry of both gradient buffers is untouched. The reverse layer sweep
that follows (`semnan_cuda_backward`) is a CUDA kernel outside the visible
sources and is not modelled. -/
def gradBufferIndex (n : Nat) : Fin 2 :=
  ⟨(n + 1) % 2, Nat.mod_lt _ (by norm_num)⟩

noncomputable def kullback_leibler_loss_backward (s : SolverState L V) :
    Option (SolverState L V) :=
  (get_sample_covariance_inv s).map fun x =>
    let k : Fin 2 := gradBufferIndex s.numLayers
    let seed : Matrix (Fin V) (Fin V) ℝ := x.1 - (visible_covariance x.2)⁻¹
    { x.2 with
      covarianceGrad := fun b =>
        if b = k then
          Matrix.of fun r j =>
            if h : L ≤ (r : Nat) then seed ⟨(r : Nat) - L, by have := r.isLt; omega⟩ j
            else x.2.covarianceGrad b r j
        else x.2.covarianceGrad b }

/-- Identity sample covariance `[[1]]` used in the stale-cache scenario. -/
noncomputable def sampleOne : Matrix (Fin 1) (Fin 1) ℝ := 1

/-- Replacement sample covariance `[[2]]` of the stale-cache scenario. -/
noncomputable def sampleTwo : Matrix (Fin 1) (Fin 1) ℝ := Matrix.of ![![2]]

/-- Initial solver state of the stale-cache scenario (`L = 0`, `V = 1`):
visible covariance `[[1]]`, no sample covariance set, caches empty. -/
noncomputable def staleState0 : SolverState 0 1 :=
  { covariance := Matrix.of ![![1]]
    covarianceGrad := fun _ => 0
    sampleCovariance := none
    sampleCovarianceInv := none
    sampleCovarianceLogdet := none
    numLayers := 1 }

/-- After `set_sample_covariance([[1]])`. -/
noncomputable def staleState1 : SolverState 0 1 := set_sample_covariance staleState0 sampleOne

/-- After the first `klLoss()` query: both lazy caches filled from `[[1]]`. -/
noncomputable def staleState2 : SolverState 0 1 :=
  { staleState1 with
    sampleCovarianceInv := some sampleOne⁻¹
    sampleCovarianceLogdet := some (torchLogdet sampleOne) }

/-- After `set_sample_covariance([[2]])`: the sample covariance is replaced
but both caches still hold the values computed from `[[1]]`. -/
noncomputable def staleState3 : SolverState 0 1 := set_sample_covariance staleState2 sampleTwo

/-- A stale-cache state whose visible covariance `[[2]]` coincides with the
currently set sample covariance `[[2]]`, while both caches still hold values
derived from the previously set `[[1]]` (reachable as: set `[[1]]`, query a
loss, run a forward pass making the visible covariance `[[2]]`, set
`[[2]]`). -/
noncomputable def staleState4 : SolverState 0 1 :=
  { covariance := Matrix.of ![![2]]
    covarianceGrad := fun _ => 0
    sampleCovariance := some sampleTwo
    sampleCovarianceInv := some sampleOne⁻¹
    sampleCovarianceLogdet := some (torchLogdet sampleOne)
    numLayers := 1 }

/-- The stale-cache state used against the gradient seed: visible covariance
`[[1]]`, sample covariance `[[2]]`, cached inverse still from `[[1]]`. -/
noncomputable def staleState5 : SolverState 0 1 :=
  { staleState4 with covariance := Matrix.of ![![1]] }

/-- A fresh state (`L = 0`, `V = 1`): visible covariance `[[1]]`, sample
covariance `[[1]]` set, caches empty. Used by witnesses. -/
noncomputable def freshState : SolverState 0 1 :=
  { covariance := Matrix.of ![![1]]
    covarianceGrad := fun _ => 0
    sampleCovariance := some sampleOne
    sampleCovarianceInv := none
    sampleCovarianceLogdet := none
    numLayers := 1 }

end Val

/-! ## Shape-level model: constructor validation and error behavior -/

namespace Shape

/-- Floating-point precision selector (`torch::Dtype` restricted to the cases
the solver distinguishes; `half` stands for any unsupported precision). -/
inductive TorchDtype
  | float
  | double
  | half
deriving DecidableEq

/-- Error kinds of the tensor runtime that the visible code can raise:
`invalidArgument` for a failed `TORCH_CHECK`, `dimOutOfRange` for
`Tensor::size(d)` with `d` outside the tensor's dimensions (a
`c10::IndexError`, surfaced differently from `c10::Error` by the bindings). -/
inductive TorchErr
  | invalidArgument
  | dimOutOfRange
deriving DecidableEq

/-- Buffer allocations performed by `init_parameters`, in program order. -/
inductive AllocEvent
  | weights
  | randomInit
  | covariance
  | lambda
  | weightsGrad
  | covarianceGrad
deriving DecidableEq

/-- A tensor descriptor: its shape and whether it lives on a CUDA device. -/
structure TensorDesc where
  dims : List Nat
  isCuda : Bool
deriving DecidableEq

/-- Number of elements: the product of the dimensions. -/
def TensorDesc.numel (t : TensorDesc) : Nat := t.dims.prod

/-- Model of `Tensor::size(d)`: the `d`-th dimension, or a dimension-out-of-
range index error when the tensor has no such dimension (negative wrapped
indices never occur in the modelled code). -/
def TensorDesc.size (t : TensorDesc) (i : Nat) : Except TorchErr Nat :=
  if h : i < t.dims.length then .ok (t.dims.get ⟨i, h⟩) else .error .dimOutOfRange

/-- Shapes owned by a successfully constructed solver. -/
structure SolverDesc where
  visibleSize : Nat
  latentSize : Nat
  dtype : TorchDtype
  weightsDims : List Nat
  covarianceDims : List Nat
  visibleCovarianceDims : List Nat
  covarianceGradDims : List Nat
  visibleCovarianceGradDims : List Nat
  sampleCovarianceDims : Option (List Nat)
deriving DecidableEq

/-- Number of elements of the optional `parameters` argument; the bindings
pass an undefined tensor (with `numel() == 0`) when it is absent. -/
def optNumel : Option TensorDesc → Nat
  | none => 0
  | some t => t.numel

/-- Dimensions of the optional `parameters` argument. -/
def optDims : Option TensorDesc → List Nat
  | none => []
  | some t => t.dims

/-- Lines 66-112 at descriptor level, in statement order: `structure.size(1)`
and `structure.size(0)` are queried first (lines 71-72, so a structure of
dimension < 2 raises an index error before any `TORCH_CHECK` runs), then the
six `TORCH_CHECK`s of lines 77-82, then the buffer allocations of lines
93-111. The returned event list records the allocations; every failure
returns before the first allocation. -/
def init_parameters (str : TensorDesc) (params : Option TensorDesc) (dtype : TorchDtype) :
    Except TorchErr SolverDesc × List AllocEvent :=
  match str.size 1 with
  | .error e => (.error e, [])
  | .ok v =>
    match str.size 0 with
    | .error e => (.error e, [])
    | .ok d0 =>
      if str.isCuda = false then (.error .invalidArgument, [])
      else if str.dims.length ≠ 2 then (.error .invalidArgument, [])
      else if str.numel = 0 then (.error .invalidArgument, [])
      else if d0 < v then (.error .invalidArgument, [])
      else if dtype ≠ TorchDtype.float ∧ dtype ≠ TorchDtype.double then
        (.error .invalidArgument, [])
      else if optNumel params ≠ 0 ∧ optDims params ≠ str.dims then
        (.error .invalidArgument, [])
      else
        (.ok
          { visibleSize := v
            latentSize := d0 - v
            dtype := dtype
            weightsDims := str.dims
            covarianceDims := str.dims
            visibleCovarianceDims := [v, v]
            covarianceGradDims := [2, d0, v]
            visibleCovarianceGradDims := [2, v, v]
            sampleCovarianceDims := none },
          [AllocEvent.weights] ++
            (if optNumel params = 0 then [AllocEvent.randomInit] else []) ++
            [AllocEvent.covariance, AllocEvent.lambda, AllocEvent.weightsGrad,
              AllocEvent.covarianceGrad])

/-- Lines 277-285 at descriptor level: the three `TORCH_CHECK`s in order
(2-dimensional, square, side equal to `visible_size`), then the assignment.
On failure the solver is returned unchanged — the exception is raised before
the member assignment of line 284. -/
def set_sample_covariance (s : SolverDesc) (sc : TensorDesc) :
    Except TorchErr Unit × SolverDesc :=
  if sc.dims.length ≠ 2 then (.error .invalidArgument, s)
  else if sc.dims.getD 0 0 ≠ sc.dims.getD 1 0 then (.error .invalidArgument, s)
  else if sc.dims.getD 0 0 ≠ s.visibleSize then (.error .invalidArgument, s)
  else (.ok (), { s with sampleCovarianceDims := some sc.dims })

end Shape


/-! ## List helper lemmas -/

section ListHelpers

variable {α : Type}

theorem getD_set_self (l : List α) (i : Nat) (a d : α) (h : i < l.length) :
    (l.set i a).getD i d = a := by
  induction l generalizing i with
  | nil => simp at h
  | cons x xs ih =>
      cases i with
      | zero => simp [List.set, List.getD]
      | succ j =>
          simp only [List.set, List.getD_cons_succ]
          exact ih j (by simpa using h)

theorem getD_set_ne (l : List α) (i j : Nat) (a d : α) (h : i ≠ j) :
    (l.set i a).getD j d = l.getD j d := by
  induction l generalizing i j with
  | nil => simp [List.set]
  | cons x xs ih =>
      cases i with
      | zero =>
          cases j with
          | zero => exact absurd rfl h
          | succ j' => simp [List.set]
      | succ i' =>
          cases j with
          | zero => simp [List.set]
          | succ j' =>
              simp only [List.set, List.getD_cons_succ]
              exact ih i' j' (by omega)

theorem set_getD_self (l : List α) (i : Nat) (d : α) (h : i < l.length) :
    l.set i (l.getD i d) = l := by
  induction l generalizing i with
  | nil => simp at h
  | cons x xs ih =>
      cases i with
      | zero => simp [List.set, List.getD]
      | succ j =>
          simp only [List.getD_cons_succ, List.set]
          rw [ih j (by simpa using h)]

theorem getD_append_left (l l' : List α) (i : Nat) (d : α) (h : i < l.length) :
    (l ++ l').getD i d = l.getD i d := by
  induction l generalizing i with
  | nil => simp at h
  | cons x xs ih =>
      cases i with
      | zero => simp [List.getD]
      | succ j =>
          simp only [List.cons_append, List.getD_cons_succ]
          exact ih j (by simpa using h)

theorem getD_append_right (l l' : List α) (i : Nat) (d : α) (h : l.length ≤ i) :
    (l ++ l').getD i d = l'.getD (i - l.length) d := by
  induction l generalizing i with
  | nil => simp
  | cons x xs ih =>
      cases i with
      | zero => simp at h
      | succ j =>
          simp only [List.cons_append, List.getD_cons_succ, List.length_cons]
          rw [ih j (by simpa using h)]
          congr 1
          omega

theorem getD_replicate (n i : Nat) (a d : α) (h : i < n) :
    (List.replicate n a).getD i d = a := by
  induction n generalizing i with
  | zero => omega
  | succ m ih =>
      cases i with
      | zero => simp [List.replicate, List.getD]
      | succ j =>
          simp only [List.replicate, List.getD_cons_succ]
          exact ih j (by omega)

theorem getLastD_concat (l : List α) (a d : α) : (l ++ [a]).getLastD d = a := by
  induction l with
  | nil => rfl
  | cons x xs ih => simpa [List.getLastD] using ih

theorem getD_irrel (l : List α) (i : Nat) (d d' : α) (h : i < l.length) :
    l.getD i d = l.getD i d' := by
  induction l generalizing i with
  | nil => simp at h
  | cons x xs ih =>
      cases i with
      | zero => simp [List.getD]
      | succ j =>
          simp only [List.getD_cons_succ]
          exact ih j (by simpa using h)

theorem getLastD_eq_getD (l : List α) (d : α) (h : l ≠ []) :
    l.getLastD d = l.getD (l.length - 1) d := by
  induction l generalizing d with
  | nil => exact absurd rfl h
  | cons x xs ih =>
      cases xs with
      | nil => rfl
      | cons y ys =>
          have e1 : (x :: y :: ys).getLastD d = (y :: ys).getLastD x := by
            simp [List.getLastD]
          rw [e1, ih x (by simp)]
          simp only [List.length_cons, Nat.add_sub_cancel, List.getD_cons_succ]
          exact getD_irrel _ _ _ _ (by simp)

end ListHelpers

/-! ## updateLast lemmas -/

section UpdateLastLemmas

variable {α : Type}

theorem length_updateLast (f : α → α) (l : List α) :
    (updateLast f l).length = l.length := by
  induction l with
  | nil => rfl
  | cons x xs ih =>
      cases xs with
      | nil => rfl
      | cons y ys => simpa [updateLast] using ih

theorem getD_updateLast_of_lt (f : α → α) (l : List α) (i : Nat) (d : α)
    (h : i + 1 < l.length) :
    (updateLast f l).getD i d = l.getD i d := by
  induction l generalizing i with
  | nil => rfl
  | cons x xs ih =>
      cases xs with
      | nil => simp at h
      | cons y ys =>
          cases i with
          | zero => simp [updateLast]
          | succ j =>
              simp only [updateLast, List.getD_cons_succ]
              exact ih j (by simpa using h)

theorem getD_updateLast_last (f : α → α) (l : List α) (d : α) (h : l ≠ []) :
    (updateLast f l).getD (l.length - 1) d = f (l.getD (l.length - 1) d) := by
  induction l with
  | nil => exact absurd rfl h
  | cons x xs ih =>
      cases xs with
      | nil => simp [updateLast, List.getD]
      | cons y ys =>
          simp only [updateLast, List.length_cons]
          have hlen : (y :: ys).length - 1 + 1 = (y :: ys).length := by simp
          simp only [Nat.add_sub_cancel]
          have : (y :: ys).length = ys.length + 1 := by simp
          rw [List.getD_cons_succ, List.getD_cons_succ]
          have ihy := ih (by simp)
          simpa using ihy

end UpdateLastLemmas

/-! ## Graph compiler: projection lemmas for the two parent loops -/

section CompilerProjections

theorem scanParents_presence (tot c : Nat) (ps : List Int) (st : CompState) :
    (scanParents tot c st ps).presence = st.presence := by
  induction ps generalizing st with
  | nil => rfl
  | cons p ps ih =>
      by_cases h : st.layerMax ≤ p <;> simp [scanParents, h, ih]

theorem scanParents_edgeCount (tot c : Nat) (ps : List Int) (st : CompState) :
    (scanParents tot c st ps).edgeCount = st.edgeCount + ps.length := by
  induction ps generalizing st with
  | nil => rfl
  | cons p ps ih =>
      by_cases h : st.layerMax ≤ p <;> simp [scanParents, h, ih] <;> omega

theorem scanParents_parentsVec (tot c : Nat) (ps : List Int) (st : CompState)
    (hc : c < st.parentsVec.length) :
    (scanParents tot c st ps).parentsVec
      = st.parentsVec.set c (st.parentsVec.getD c [] ++ ps) := by
  induction ps generalizing st with
  | nil =>
      simp only [scanParents, List.append_nil]
      exact (set_getD_self _ _ _ hc).symm
  | cons p ps ih =>
      by_cases h : st.layerMax ≤ p <;>
        · simp only [scanParents, h, if_true, if_false, ite_true, ite_false]
          rw [ih _ (by simpa using hc)]
          rw [getD_set_self _ _ _ _ hc, List.set_set, List.append_assoc,
            List.singleton_append]

theorem scanParents_parentsVec_length (tot c : Nat) (ps : List Int) (st : CompState) :
    (scanParents tot c st ps).parentsVec.length = st.parentsVec.length := by
  induction ps generalizing st with
  | nil => rfl
  | cons p ps ih =>
      by_cases h : st.layerMax ≤ p <;> simp [scanParents, h, ih]

/-- Case analysis for the first inner loop: either no parent reaches the
boundary marker and the marker and layer list are untouched, or the marker
ends at `c` and at least one fresh layer record (with `num = 0` and index
equal to its position) was appended. -/
theorem scanParents_cases (tot c : Nat) (ps : List Int) (st : CompState) :
    ((scanParents tot c st ps).layerMax = st.layerMax ∧
      (scanParents tot c st ps).layers = st.layers ∧
      ∀ p ∈ ps, p < st.layerMax) ∨
    ((scanParents tot c st ps).layerMax = (c : Int) ∧
      ∃ t, (scanParents tot c st ps).layers = st.layers ++ t ∧ t ≠ [] ∧
        ∀ ld ∈ t, ld.num = 0) := by
  induction ps generalizing st with
  | nil => exact Or.inl ⟨rfl, rfl, by simp⟩
  | cons p ps ih =>
      by_cases h : st.layerMax ≤ p
      · right
        simp only [scanParents, h, ite_true]
        rcases ih { st with
            parentsVec := st.parentsVec.set c ((st.parentsVec.getD c []) ++ [p])
            edgeCount := st.edgeCount + 1
            layerMax := (c : Int)
            layers := st.layers ++ [⟨st.layers.length, c, 0, 0⟩]
            childrenVec := st.childrenVec ++ [List.replicate tot []] } with
          hA | hB
        · exact ⟨hA.1, [⟨st.layers.length, c, 0, 0⟩], by simpa using hA.2.1, by simp⟩
        · obtain ⟨t, ht, htne, htnum⟩ := hB.2
          refine ⟨hB.1, ⟨st.layers.length, c, 0, 0⟩ :: t, ?_, by simp, ?_⟩
          · simpa using ht
          · intro ld hld
            rcases List.mem_cons.mp hld with h1 | h2
            · simp [h1]
            · exact htnum ld h2
      · rcases ih { st with
            parentsVec := st.parentsVec.set c ((st.parentsVec.getD c []) ++ [p])
            edgeCount := st.edgeCount + 1 } with hA | hB
        · left
          refine ⟨by simpa [scanParents, h] using hA.1, by simpa [scanParents, h] using hA.2.1, ?_⟩
          intro q hq
          rcases List.mem_cons.mp hq with h1 | h2
          · omega
          · exact hA.2.2 q h2
        · right
          exact ⟨by simpa [scanParents, h] using hB.1, by simpa [scanParents, h] using hB.2⟩

theorem scanParents_layers_le (tot c : Nat) (ps : List Int) (st : CompState) :
    st.layers.length ≤ (scanParents tot c st ps).layers.length := by
  rcases scanParents_cases tot c ps st with hA | hB
  · rw [hA.2.1]
  · obtain ⟨t, ht, _, _⟩ := hB.2
    rw [ht]
    simp

theorem scanParents_idxOk (tot c : Nat) (ps : List Int) (st : CompState)
    (h : layersIdxOk st) : layersIdxOk (scanParents tot c st ps) := by
  induction ps generalizing st with
  | nil => exact h
  | cons p ps ih =>
      by_cases htr : st.layerMax ≤ p
      · simp only [scanParents, htr, ite_true]
        apply ih
        intro i hi
        simp only [List.length_append, List.length_singleton] at hi
        by_cases hlt : i < st.layers.length
        · rw [getD_append_left _ _ _ _ hlt]
          exact h i hlt
        · have hieq : i = st.layers.length := by omega
          rw [getD_append_right _ _ _ _ (by omega)]
          simp [hieq]
      · simp only [scanParents, htr, ite_false]
        exact ih _ h

theorem recordParents_layers (L c : Nat) (ps : List Int) (st : CompState) :
    (recordParents L c st ps).layers = st.layers := by
  induction ps generalizing st with
  | nil => rfl
  | cons p ps ih => simp [recordParents, ih]

theorem recordParents_layerMax (L c : Nat) (ps : List Int) (st : CompState) :
    (recordParents L c st ps).layerMax = st.layerMax := by
  induction ps generalizing st with
  | nil => rfl
  | cons p ps ih => simp [recordParents, ih]

theorem recordParents_edgeCount (L c : Nat) (ps : List Int) (st : CompState) :
    (recordParents L c st ps).edgeCount = st.edgeCount := by
  induction ps generalizing st with
  | nil => rfl
  | cons p ps ih => simp [recordParents, ih]

theorem recordParents_parentsVec (L c : Nat) (ps : List Int) (st : CompState) :
    (recordParents L c st ps).parentsVec = st.parentsVec := by
  induction ps generalizing st with
  | nil => rfl
  | cons p ps ih => simp [recordParents, ih]

theorem recordParents_presence_length (L c : Nat) (ps : List Int) (st : CompState) :
    (recordParents L c st ps).presence.length = st.presence.length := by
  induction ps generalizing st with
  | nil => rfl
  | cons p ps ih =>
      simp only [recordParents, ih]
      by_cases h : p < 0 <;> simp [h]

/-- Effect of the second inner loop on one presence entry: latent `v` (with
signed index `v - L`) is updated by `presUpdate` at the current layer value
exactly when it is among the parents, provided the parent list has no
duplicates and stays in the legal signed range. -/
theorem recordParents_presence_getD (L c : Nat) (ps : List Int) (st : CompState)
    (v : Nat) (hv : v < L) (hvlen : st.presence.length = L)
    (hnd : ps.Nodup) (hrange : ∀ p ∈ ps, -(L : Int) ≤ p) :
    (recordParents L c st ps).presence.getD v (-1, -1)
      = if ((v : Int) - (L : Int)) ∈ ps then
          presUpdate (st.presence.getD v (-1, -1))
            (((st.layers.getLastD default).idx : Int) - 1)
        else st.presence.getD v (-1, -1) := by
  induction ps generalizing st with
  | nil => simp [recordParents]
  | cons p ps ih =>
      have hnd' : ps.Nodup := (List.nodup_cons.mp hnd).2
      have hpmem : p ∉ ps := (List.nodup_cons.mp hnd).1
      have hrange' : ∀ q ∈ ps, -(L : Int) ≤ q := fun q hq => hrange q (by simp [hq])
      by_cases hplt : p < 0
      · have hstep : recordParents L c st (p :: ps)
            = recordParents L c
                { st with
                  presence := st.presence.set (p + (L : Int)).toNat
                    (presUpdate (st.presence.getD (p + (L : Int)).toNat (-1, -1))
                      (((st.layers.getLastD default).idx : Int) - 1))
                  childrenVec :=
                    updateLast
                      (fun bucket =>
                        bucket.set (p + (L : Int)).toNat
                          ((bucket.getD (p + (L : Int)).toNat []) ++ [c]))
                      st.childrenVec } ps := by
          simp [recordParents, hplt]
        rw [hstep, ih _ (by simp [hvlen]) hnd' hrange']
        dsimp only
        by_cases hpv : p = (v : Int) - (L : Int)
        · have hnotmem : ((v : Int) - (L : Int)) ∉ ps := by rwa [hpv] at hpmem
          have hmem : ((v : Int) - (L : Int)) ∈ p :: ps := by simp [hpv]
          have hidx : (p + (L : Int)).toNat = v := by omega
          simp only [hnotmem, if_false, ite_false, hmem, if_true, ite_true, hidx]
          rw [getD_set_self _ _ _ _ (by omega)]
        · have hmemiff : (((v : Int) - (L : Int)) ∈ p :: ps) ↔ (((v : Int) - (L : Int)) ∈ ps) := by
            simp only [List.mem_cons]
            constructor
            · intro h
              rcases h with h | h
              · exact absurd h.symm hpv
              · exact h
            · intro h
              exact Or.inr h
          have hne : (p + (L : Int)).toNat ≠ v := by
            have := hrange p (by simp)
            omega
          simp only [getD_set_ne _ _ _ _ _ hne, hmemiff]
      · have hstep : recordParents L c st (p :: ps)
            = recordParents L c
                { st with
                  childrenVec :=
                    updateLast
                      (fun bucket =>
                        bucket.set (p + (L : Int)).toNat
                          ((bucket.getD (p + (L : Int)).toNat []) ++ [c]))
                      st.childrenVec } ps := by
          simp [recordParents, hplt]
        rw [hstep, ih _ (by simp [hvlen]) hnd' hrange']
        dsimp only
        have hmemiff : (((v : Int) - (L : Int)) ∈ p :: ps) ↔ (((v : Int) - (L : Int)) ∈ ps) := by
          simp only [List.mem_cons]
          constructor
          · intro h
            rcases h with h | h
            · exfalso
              omega
            · exact h
          · intro h
            exact Or.inr h
        simp only [hmemiff]

end CompilerProjections

/-! ## Graph compiler: layer assignment and presence specification -/

section CompilerBasics

variable (L V : Nat) (S : Nat → Nat → Bool)

theorem compileAux_succ (c : Nat) :
    compileAux L V S (c + 1) = childStep L V (L + V) S (compileAux L V S c) c := rfl

theorem childStep_layers_le (tot c : Nat) (st : CompState) :
    st.layers.length ≤ (childStep L V tot S st c).layers.length := by
  unfold childStep
  dsimp only
  rw [length_updateLast, recordParents_layers]
  exact scanParents_layers_le _ _ _ _

theorem compileAux_len_mono : Monotone (fun c => (compileAux L V S c).layers.length) := by
  apply monotone_nat_of_le_succ
  intro n
  rw [compileAux_succ]
  exact childStep_layers_le L V S _ _ _

theorem two_le_layers (c : Nat) : 2 ≤ (compileAux L V S c).layers.length := by
  have h0 : (compileAux L V S 0).layers.length = 2 := by
    simp [compileAux, initState]
  calc 2 = (compileAux L V S 0).layers.length := h0.symm
  _ ≤ _ := compileAux_len_mono L V S (Nat.zero_le c)

theorem layerOf_len (c : Nat) :
    layerOf L V S c + 1 = (compileAux L V S (c + 1)).layers.length := by
  have := two_le_layers L V S (c + 1)
  unfold layerOf
  omega

theorem layerOf_pos (c : Nat) : 1 ≤ layerOf L V S c := by
  have := two_le_layers L V S (c + 1)
  unfold layerOf
  omega

theorem layerOf_mono {c d : Nat} (h : c ≤ d) : layerOf L V S c ≤ layerOf L V S d := by
  have hm : (compileAux L V S (c + 1)).layers.length
      ≤ (compileAux L V S (d + 1)).layers.length :=
    compileAux_len_mono L V S (by omega)
  unfold layerOf
  omega

theorem parentsOfChild_nodup (c : Nat) : (parentsOfChild L V S c).Nodup := by
  unfold parentsOfChild
  refine List.Nodup.map ?_ ((List.nodup_range _).filter _)
  intro a b hab
  have hab2 : (a : Int) - (L : Int) = (b : Int) - (L : Int) := hab
  omega

theorem parentsOfChild_lb (c : Nat) : ∀ p ∈ parentsOfChild L V S c, -(L : Int) ≤ p := by
  intro p hp
  unfold parentsOfChild at hp
  obtain ⟨r, _, hr⟩ := List.mem_map.mp hp
  omega

theorem parentsOfChild_ub (c : Nat) : ∀ p ∈ parentsOfChild L V S c, p < (V : Int) := by
  intro p hp
  unfold parentsOfChild at hp
  obtain ⟨r, hrmem, hr⟩ := List.mem_map.mp hp
  have hrlt := List.mem_range.mp (List.mem_filter.mp hrmem).1
  omega

theorem mem_parentsOfChild (v c : Nat) (hv : v < L + V) :
    ((v : Int) - (L : Int)) ∈ parentsOfChild L V S c ↔ S v c = true := by
  unfold parentsOfChild
  rw [List.mem_map]
  constructor
  · rintro ⟨r, hrmem, hr⟩
    have h1 := List.mem_filter.mp hrmem
    have h2 := List.mem_range.mp h1.1
    have hrv : r = v := by omega
    rw [hrv] at h1
    exact h1.2
  · intro h
    exact ⟨v, List.mem_filter.mpr ⟨List.mem_range.mpr hv, h⟩, rfl⟩

theorem visible_mem_parentsOfChild (p c : Nat) (hp : p < V) :
    ((p : Int)) ∈ parentsOfChild L V S c ↔ S (p + L) c = true := by
  have h := mem_parentsOfChild L V S (p + L) c (by omega)
  have : ((p + L : Nat) : Int) - (L : Int) = (p : Int) := by push_cast; ring
  rwa [this] at h

end CompilerBasics

/-! ## Graph compiler: the main loop invariant -/


theorem getD_mem {α : Type} (l : List α) (i : Nat) (d : α) (h : i < l.length) :
    l.getD i d ∈ l := by
  rw [List.getD_eq_getElem l d h]
  exact List.getElem_mem h

theorem headD_append {α : Type} (l l' : List α) (d : α) (h : l ≠ []) :
    (l ++ l').headD d = l.headD d := by
  cases l with
  | nil => exact absurd rfl h
  | cons x xs => rfl

theorem set_append_len {α : Type} (A B : List α) (x : α) :
    (A ++ B).set A.length x = A ++ B.set 0 x := by
  induction A with
  | nil => simp
  | cons a as ih => simpa [List.set] using ih

theorem idxOk_updateLast_num (l : List LayerData)
    (h : ∀ i, i < l.length → (l.getD i default).idx = i) :
    ∀ i, i < (updateLast (fun ld => { ld with num := ld.num + 1 }) l).length →
      ((updateLast (fun ld => { ld with num := ld.num + 1 }) l).getD i default).idx = i := by
  intro i hi
  rw [length_updateLast] at hi
  by_cases hl : i + 1 < l.length
  · rw [getD_updateLast_of_lt _ _ _ _ hl]
    exact h i hi
  · have hne : l ≠ [] := by
      intro hnil
      rw [hnil] at hi
      simp at hi
    have hieq : i = l.length - 1 := by omega
    rw [hieq, getD_updateLast_last _ _ _ hne]
    exact h _ (by omega)

/-- Effect of one outer-loop iteration on a latent presence specification. -/
theorem presSpec_step (L V : Nat) (S : Nat → Nat → Bool) (v c : Nat) :
    presSpec L V S v (c + 1)
      = if S v c = true then
          presUpdate (presSpec L V S v c) (((layerOf L V S c : Nat) : Int) - 1)
        else presSpec L V S v c := by
  unfold presSpec
  rw [List.range_succ, List.filter_append]
  by_cases hS : S v c = true
  · have hfc : [c].filter (fun d => S v d) = [c] := by simp [hS]
    rw [hfc]
    by_cases hl : (List.range c).filter (fun d => S v d) = []
    · simp only [hl, List.nil_append, hS, if_true, ite_true]
      have hne : ([c] : List Nat) ≠ [] := by simp
      simp only [hne, if_false, ite_false]
      unfold presUpdate
      simp [List.headD, List.getLastD]
    · have hne : (List.range c).filter (fun d => S v d) ++ [c] ≠ [] := by
        simp
      simp only [hne, if_false, ite_false, hl, hS, if_true, ite_true]
      rw [headD_append _ _ _ hl, getLastD_concat]
      unfold presUpdate
      have hpos := layerOf_pos L V S (((List.range c).filter (fun d => S v d)).headD 0)
      have hfst : ((layerOf L V S (((List.range c).filter (fun d => S v d)).headD 0) : Nat) : Int) - 1 ≠ -1 := by
        omega
      simp only [hl, if_false, ite_false, hfst]
  · have hfc : [c].filter (fun d => S v d) = [] := by
      simp [hS]
    rw [hfc]
    simp [hS]

theorem inv_zero (L V : Nat) (S : Nat → Nat → Bool) :
    Inv L V S 0 (compileAux L V S 0) := by
  refine ⟨?_, ?_, ?_, ?_, ?_, ?_, ?_, ?_, ?_, ?_⟩
  · simp [compileAux, initState]
  · intro i hi
    have hi2 : i < 2 := by simpa [compileAux, initState] using hi
    interval_cases i <;> rfl
  · simp [compileAux, initState]
  · simp [compileAux, initState]
  · simp [compileAux, initState]
  · intro d hd
    omega
  · intro d hd
    omega
  · intro i hi
    have hi2 : i < 2 := by simpa [compileAux, initState] using hi
    have hfilter : ((List.range 0).filter (fun d => layerOf L V S d = i)).length = 0 := by simp
    rw [hfilter]
    interval_cases i <;> rfl
  · intro v hv
    simp only [compileAux, initState, presSpec]
    rw [getD_replicate _ _ _ _ hv]
    simp
  · simp [compileAux, initState]

theorem inv_step (L V : Nat) (S : Nat → Nat → Bool) (c : Nat) (hcV : c < V)
    (inv : Inv L V S c (compileAux L V S c)) :
    Inv L V S (c + 1) (compileAux L V S (c + 1)) := by
  have hsucc : compileAux L V S (c + 1)
      = { recordParents L c (scanParents (L + V) c (compileAux L V S c) (parentsOfChild L V S c))
            (parentsOfChild L V S c) with
          layers := updateLast (fun ld => { ld with num := ld.num + 1 })
            (recordParents L c
              (scanParents (L + V) c (compileAux L V S c) (parentsOfChild L V S c))
              (parentsOfChild L V S c)).layers } := by
    rw [compileAux_succ]
    rfl
  set st := compileAux L V S c with hst
  set ps := parentsOfChild L V S c with hps
  set stA := scanParents (L + V) c st ps with hstA
  set stB := recordParents L c stA ps with hstB
  have hBlayers : stB.layers = stA.layers := recordParents_layers L c ps stA
  have hBmax : stB.layerMax = stA.layerMax := recordParents_layerMax L c ps stA
  have hlen' : (compileAux L V S (c + 1)).layers.length = stA.layers.length := by
    rw [hsucc]
    dsimp only
    rw [length_updateLast, hBlayers]
  have hlayers' : (compileAux L V S (c + 1)).layers
      = updateLast (fun ld => { ld with num := ld.num + 1 }) stA.layers := by
    rw [hsucc]
    dsimp only
    rw [hBlayers]
  have hmax' : (compileAux L V S (c + 1)).layerMax = stA.layerMax := by
    rw [hsucc]
    exact hBmax
  have hpres' : (compileAux L V S (c + 1)).presence = stB.presence := by
    rw [hsucc]
  have hpv' : (compileAux L V S (c + 1)).parentsVec = stB.parentsVec := by
    rw [hsucc]
  have hec' : (compileAux L V S (c + 1)).edgeCount = stB.edgeCount := by
    rw [hsucc]
  have hlenle : st.layers.length ≤ stA.layers.length := scanParents_layers_le _ _ _ _
  have hlen2A : 2 ≤ stA.layers.length := le_trans inv.len2 hlenle
  have hidxA : layersIdxOk stA := scanParents_idxOk _ _ _ _ inv.idxOk
  have hAne : stA.layers ≠ [] := by
    intro h
    rw [h] at hlen2A
    simp at hlen2A
  have hlayc : layerOf L V S c = stA.layers.length - 1 := by
    unfold layerOf
    rw [hlen']
  have hcurval : ((stA.layers.getLastD default).idx : Int) - 1
      = ((layerOf L V S c : Nat) : Int) - 1 := by
    rw [getLastD_eq_getD _ _ hAne, hidxA _ (by omega), hlayc]
  have hpresA : stA.presence = st.presence := scanParents_presence _ _ _ _
  have hpresAlen : stA.presence.length = L := by
    rw [hpresA, inv.presLen]
  have hparlen : st.parentsVec.length = V := by
    rw [inv.parVec]
    simp
    omega
  have hpvB : stB.parentsVec = st.parentsVec.set c (st.parentsVec.getD c [] ++ ps) := by
    rw [hstB, recordParents_parentsVec, hstA, scanParents_parentsVec _ _ _ _ (by omega)]
  have hecB : stB.edgeCount = st.edgeCount + ps.length := by
    rw [hstB, recordParents_edgeCount, hstA, scanParents_edgeCount]
  have hpresB : ∀ v, v < L →
      stB.presence.getD v (-1, -1)
        = if ((v : Int) - (L : Int)) ∈ ps then
            presUpdate (st.presence.getD v (-1, -1)) (((layerOf L V S c : Nat) : Int) - 1)
          else st.presence.getD v (-1, -1) := by
    intro v hv
    rw [hstB, recordParents_presence_getD L c ps stA v hv hpresAlen
      (parentsOfChild_nodup L V S c) (parentsOfChild_lb L V S c), hpresA, hcurval]
  have hcount : ∀ i, ((List.range (c + 1)).filter (fun d => layerOf L V S d = i)).length
      = ((List.range c).filter (fun d => layerOf L V S d = i)).length
        + (if layerOf L V S c = i then 1 else 0) := by
    intro i
    rw [List.range_succ, List.filter_append, List.length_append]
    congr 1
    by_cases h : layerOf L V S c = i <;> simp [h]
  have hpresFinal : ∀ v, v < L →
      (compileAux L V S (c + 1)).presence.getD v (-1, -1) = presSpec L V S v (c + 1) := by
    intro v hv
    rw [hpres', hpresB v hv, presSpec_step]
    have hmem : (((v : Int) - (L : Int)) ∈ ps) ↔ S v c = true :=
      mem_parentsOfChild L V S v c (by omega)
    by_cases hS : S v c = true
    · rw [if_pos (hmem.mpr hS), if_pos hS, inv.pres v hv]
    · rw [if_neg (fun hmm => hS (hmem.mp hmm)), if_neg hS]
      exact inv.pres v hv
  have hparFinal : (compileAux L V S (c + 1)).parentsVec
      = ((List.range (c + 1)).map (parentsOfChild L V S)) ++ List.replicate (V - (c + 1)) [] := by
    rw [hpv', hpvB, inv.parVec]
    have hlenmap : ((List.range c).map (parentsOfChild L V S)).length = c := by simp
    have hgd : (((List.range c).map (parentsOfChild L V S))
        ++ List.replicate (V - c) []).getD c [] = [] := by
      rw [getD_append_right _ _ _ _ (by rw [hlenmap])]
      rw [hlenmap]
      simp only [Nat.sub_self]
      exact getD_replicate _ _ _ _ (by omega)
    rw [hgd]
    have hset : (((List.range c).map (parentsOfChild L V S))
        ++ List.replicate (V - c) []).set c ([] ++ ps)
        = ((List.range c).map (parentsOfChild L V S))
          ++ (List.replicate (V - c) []).set 0 ([] ++ ps) := by
      have := set_append_len ((List.range c).map (parentsOfChild L V S))
        (List.replicate (V - c) []) ([] ++ ps)
      rwa [hlenmap] at this
    rw [hset]
    have hrep : List.replicate (V - c) ([] : List Int)
        = [] :: List.replicate (V - (c + 1)) [] := by
      have : V - c = (V - (c + 1)) + 1 := by omega
      rw [this, List.replicate_succ]
    rw [hrep]
    simp [List.range_succ]
  have hedgeFinal : (compileAux L V S (c + 1)).edgeCount
      = (((List.range (c + 1)).map (fun d => (parentsOfChild L V S d).length)).sum) := by
    rw [hec', hecB, inv.edge]
    rw [List.range_succ]
    simp
  have hlmaxFinal : (compileAux L V S (c + 1)).layerMax < ((c + 1 : Nat) : Int) := by
    rw [hmax', hBmax] at *
    rcases scanParents_cases (L + V) c ps st with ⟨hMax, _, _⟩ | ⟨hMax, _⟩
    · rw [hmax', hBmax, hMax]
      have := inv.lmaxUB
      push_cast
      omega
    · rw [hmax', hBmax, hMax]
      push_cast
      omega
  have hlayerFFinal : ∀ d, d < c + 1 →
      layerOf L V S d + 1 ≤ (compileAux L V S (c + 1)).layers.length := by
    intro d hd
    rw [hlen']
    by_cases hdc : d < c
    · exact le_trans (inv.layerF d hdc) hlenle
    · have : d = c := by omega
      rw [this, hlayc]
      omega
  refine ⟨?_, ?_, ?_, hparFinal, hlmaxFinal, hlayerFFinal, ?_, ?_, hpresFinal, hedgeFinal⟩
  · -- len2
    rw [hlen']
    exact hlen2A
  · -- idxOk
    intro i hi
    rw [hlayers'] at hi ⊢
    exact idxOk_updateLast_num stA.layers hidxA i hi
  · -- presLen
    rw [hpres', hstB, recordParents_presence_length, hpresAlen]
  · -- layerE
    rcases scanParents_cases (L + V) c ps st with ⟨hMax, hLay, _⟩ | ⟨hMax, t, hLay, htne, _⟩
    · intro d hd hdm
      rw [hmax', hMax] at hdm
      rw [hlen', hLay]
      by_cases hdc : d < c
      · exact inv.layerE d hdc hdm
      · have hdceq : d = c := by omega
        rw [hdceq] at hdm
        have := inv.lmaxUB
        omega
    · intro d hd hdm
      rw [hmax', hMax] at hdm
      have hdc : d < c := by
        by_contra hcon
        have : d = c := by omega
        rw [this] at hdm
        omega
      have hF := inv.layerF d hdc
      have hlenA : stA.layers.length = st.layers.length + t.length := by
        rw [hLay]
        simp
      have htpos : 1 ≤ t.length := List.length_pos.mpr htne
      rw [hlen']
      omega
  · -- nums
    rcases scanParents_cases (L + V) c ps st with ⟨hMax, hLay, _⟩ | ⟨hMax, t, hLay, htne, htnum⟩
    · -- no trigger: layers unchanged, last record's count grows by one
      intro i hi
      rw [hlen', hLay] at hi
      rw [hlayers', hLay, hcount]
      have hlc : layerOf L V S c = st.layers.length - 1 := by
        rw [hlayc, hLay]
      have hstne : st.layers ≠ [] := by
        intro h
        have := inv.len2
        rw [h] at this
        simp at this
      by_cases hlast : i = st.layers.length - 1
      · rw [hlast, getD_updateLast_last _ _ _ hstne]
        rw [if_pos hlc]
        have hnum := inv.nums (st.layers.length - 1) (by omega)
        show (st.layers.getD (st.layers.length - 1) default).num + 1 = _
        omega
      · have hilt : i + 1 < st.layers.length := by omega
        rw [getD_updateLast_of_lt _ _ _ _ hilt]
        have : ¬(layerOf L V S c = i) := by omega
        simp only [this, if_false, ite_false]
        rw [inv.nums i (by omega)]
        omega
    · -- trigger: fresh records appended, the last one gets the node
      intro i hi
      rw [hlen'] at hi
      have hlenA : stA.layers.length = st.layers.length + t.length := by
        rw [hLay]
        simp
      have htpos : 1 ≤ t.length := List.length_pos.mpr htne
      have hlc : layerOf L V S c = st.layers.length + t.length - 1 := by
        rw [hlayc, hlenA]
      have hAne2 : stA.layers ≠ [] := hAne
      have hcount0 : ∀ j, st.layers.length ≤ j →
          ((List.range c).filter (fun d => layerOf L V S d = j)).length = 0 := by
        intro j hj
        rw [List.length_eq_zero]
        rw [List.filter_eq_nil]
        intro d hd
        have := inv.layerF d (List.mem_range.mp hd)
        simp only [decide_eq_true_eq]
        omega
      rw [hlayers', hcount]
      by_cases hlast : i = stA.layers.length - 1
      · rw [hlast]
        have hx : (updateLast (fun ld => { ld with num := ld.num + 1 }) stA.layers).getD
            (stA.layers.length - 1) default
            = { (stA.layers.getD (stA.layers.length - 1) default) with
                num := (stA.layers.getD (stA.layers.length - 1) default).num + 1 } :=
          getD_updateLast_last _ _ _ hAne2
        rw [hx]
        have hbase : stA.layers.getD (stA.layers.length - 1) default
            = t.getD (t.length - 1) default := by
          rw [hLay]
          simp only [List.length_append]
          rw [getD_append_right _ _ _ _ (by omega)]
          congr 1
          omega
        have hnum0 : (t.getD (t.length - 1) default).num = 0 :=
          htnum _ (getD_mem _ _ _ (by omega))
        have hceq : layerOf L V S c = stA.layers.length - 1 := by
          rw [hlayc]
        rw [if_pos hceq]
        show (stA.layers.getD (stA.layers.length - 1) default).num + 1 = _
        rw [hbase, hnum0, hcount0 (stA.layers.length - 1) (by omega)]
      · have hilt : i + 1 < stA.layers.length := by omega
        rw [getD_updateLast_of_lt _ _ _ _ hilt]
        have hne : ¬(layerOf L V S c = i) := by
          rw [hlayc]
          omega
        simp only [hne, if_false, ite_false]
        by_cases hin : i < st.layers.length
        · rw [hLay, getD_append_left _ _ _ _ hin]
          rw [inv.nums i hin]
          omega
        · rw [hLay, getD_append_right _ _ _ _ (by omega)]
          have hnum0 : (t.getD (i - st.layers.length) default).num = 0 :=
            htnum _ (getD_mem _ _ _ (by omega))
          rw [hnum0, hcount0 i (by omega)]

theorem inv_holds (L V : Nat) (S : Nat → Nat → Bool) (c : Nat) (hc : c ≤ V) :
    Inv L V S c (compileAux L V S c) := by
  induction c with
  | zero => exact inv_zero L V S
  | succ n ih => exact inv_step L V S n (by omega) (ih (by omega))

/-! ## Layering theorems -/

theorem layerOf_eq_scan (L V : Nat) (S : Nat → Nat → Bool) (c : Nat) :
    layerOf L V S c
      = (scanParents (L + V) c (compileAux L V S c) (parentsOfChild L V S c)).layers.length - 1 := by
  have h : compileAux L V S (c + 1)
      = { recordParents L c (scanParents (L + V) c (compileAux L V S c) (parentsOfChild L V S c))
            (parentsOfChild L V S c) with
          layers := updateLast (fun ld => { ld with num := ld.num + 1 })
            (recordParents L c
              (scanParents (L + V) c (compileAux L V S c) (parentsOfChild L V S c))
              (parentsOfChild L V S c)).layers } := by
    rw [compileAux_succ]
    rfl
  unfold layerOf
  rw [h]
  dsimp only
  rw [length_updateLast, recordParents_layers]

theorem parent_layer_lt (L V : Nat) (S : Nat → Nat → Bool) (c : Nat) (hc : c < V)
    (p : Int) (hp : p ∈ parentsOfChild L V S c) (hp0 : 0 ≤ p) (hdc : p.toNat < c) :
    layerOf L V S p.toNat < layerOf L V S c := by
  have inv := inv_holds L V S c (by omega)
  have hlayc := layerOf_eq_scan L V S c
  rcases scanParents_cases (L + V) c (parentsOfChild L V S c) (compileAux L V S c) with
    ⟨hMax, hLay, hAll⟩ | ⟨hMax, t, hLay, htne, _⟩
  · have hplt : p < (compileAux L V S c).layerMax := hAll p hp
    have hE := inv.layerE p.toNat hdc (by rwa [Int.toNat_of_nonneg hp0])
    rw [hlayc, hLay]
    have h2 := inv.len2
    omega
  · have hF := inv.layerF p.toNat hdc
    have hlenA : (scanParents (L + V) c (compileAux L V S c)
        (parentsOfChild L V S c)).layers.length
        = (compileAux L V S c).layers.length + t.length := by
      rw [hLay]
      simp
    have htpos : 1 ≤ t.length := List.length_pos.mpr htne
    rw [hlayc]
    omega

theorem parentsOfChild_visible_lt (L V : Nat) (S : Nat → Nat → Bool) (c : Nat)
    (htop : ∀ r, r < L + V → L ≤ r → S r c = true → r < L + c)
    (p : Int) (hp : p ∈ parentsOfChild L V S c) (hp0 : 0 ≤ p) : p.toNat < c := by
  unfold parentsOfChild at hp
  obtain ⟨r, hrmem, hr⟩ := List.mem_map.mp hp
  have h1 := List.mem_filter.mp hrmem
  have h2 := List.mem_range.mp h1.1
  have hrL : L ≤ r := by omega
  have := htop r h2 hrL h1.2
  omega

/-! ## CSR offset theorems -/

theorem csr_fold_inv {A : Type} (pv : List (List A)) :
    ∀ (flat : List A) (bases : List Nat),
      List.Pairwise (· ≤ ·) bases →
      (∀ b ∈ bases, b ≤ flat.length) →
      bases.getLastD 0 = flat.length →
      List.Pairwise (· ≤ ·) (pv.foldl csrStep (flat, bases)).2 ∧
      (∀ b ∈ (pv.foldl csrStep (flat, bases)).2, b ≤ (pv.foldl csrStep (flat, bases)).1.length) ∧
      (pv.foldl csrStep (flat, bases)).2.getLastD 0 = (pv.foldl csrStep (flat, bases)).1.length ∧
      (pv.foldl csrStep (flat, bases)).1.length = flat.length + (pv.map List.length).sum := by
  induction pv with
  | nil =>
      intro flat bases h1 h2 h3
      exact ⟨h1, h2, h3, by simp⟩
  | cons l ls ih =>
      intro flat bases h1 h2 h3
      have hstep : (l :: ls).foldl csrStep (flat, bases)
          = ls.foldl csrStep (flat ++ l, bases ++ [(flat ++ l).length]) := rfl
      rw [hstep]
      have h1' : List.Pairwise (· ≤ ·) (bases ++ [(flat ++ l).length]) := by
        rw [List.pairwise_append]
        refine ⟨h1, by simp, ?_⟩
        intro a ha b hb
        rw [List.mem_singleton] at hb
        subst hb
        calc a ≤ flat.length := h2 a ha
        _ ≤ (flat ++ l).length := by simp
      have h2' : ∀ b ∈ bases ++ [(flat ++ l).length], b ≤ (flat ++ l).length := by
        intro b hb
        rcases List.mem_append.mp hb with hb | hb
        · calc b ≤ flat.length := h2 b hb
          _ ≤ (flat ++ l).length := by simp
        · rw [List.mem_singleton] at hb
          omega
      have h3' : (bases ++ [(flat ++ l).length]).getLastD 0 = (flat ++ l).length :=
        getLastD_concat _ _ _
      obtain ⟨r1, r2, r3, r4⟩ := ih (flat ++ l) (bases ++ [(flat ++ l).length]) h1' h2' h3'
      refine ⟨r1, r2, r3, ?_⟩
      rw [r4]
      simp
      omega

theorem buildParents_props (pv : List (List Int)) :
    List.Pairwise (· ≤ ·) (buildParents pv).2 ∧
    (buildParents pv).2.getLastD 0 = (pv.map List.length).sum := by
  have heq : buildParents pv = pv.foldl csrStep ([], [0]) := rfl
  have h := csr_fold_inv pv [] [0] (by simp) (by simp) (by simp)
  rw [heq]
  refine ⟨h.1, ?_⟩
  rw [h.2.2.1, h.2.2.2]
  simp

theorem buildChildren_loop (cv : List (List (List Nat))) (rows : List Nat) :
    ∀ (flat : List Nat) (bases : List Nat),
      List.Pairwise (· ≤ ·) bases →
      (∀ b ∈ bases, b ≤ flat.length) →
      bases.getLastD 0 = flat.length →
      List.Pairwise (· ≤ ·)
        (rows.foldl
          (fun acc r => cv.foldl (fun acc2 bucket => csrStep acc2 (bucket.getD r []))
            (acc.1, acc.2 ++ [acc.1.length]))
          (flat, bases)).2 := by
  induction rows with
  | nil =>
      intro flat bases h1 _ _
      exact h1
  | cons r rows ih =>
      intro flat bases h1 h2 h3
      have hstep : ((r :: rows).foldl
          (fun acc r => cv.foldl (fun acc2 bucket => csrStep acc2 (bucket.getD r []))
            (acc.1, acc.2 ++ [acc.1.length]))
          (flat, bases))
          = rows.foldl
              (fun acc r => cv.foldl (fun acc2 bucket => csrStep acc2 (bucket.getD r []))
                (acc.1, acc.2 ++ [acc.1.length]))
              (cv.foldl (fun acc2 bucket => csrStep acc2 (bucket.getD r []))
                (flat, bases ++ [flat.length])) := rfl
      rw [hstep]
      have hmap : cv.foldl (fun acc2 bucket => csrStep acc2 (bucket.getD r []))
          (flat, bases ++ [flat.length])
          = (cv.map (fun bucket => bucket.getD r [])).foldl csrStep
              (flat, bases ++ [flat.length]) := by
        rw [List.foldl_map]
      have h1' : List.Pairwise (· ≤ ·) (bases ++ [flat.length]) := by
        rw [List.pairwise_append]
        refine ⟨h1, by simp, ?_⟩
        intro a ha b hb
        rw [List.mem_singleton] at hb
        subst hb
        exact h2 a ha
      have h2' : ∀ b ∈ bases ++ [flat.length], b ≤ flat.length := by
        intro b hb
        rcases List.mem_append.mp hb with hb | hb
        · exact h2 b hb
        · rw [List.mem_singleton] at hb
          omega
      have h3' : (bases ++ [flat.length]).getLastD 0 = flat.length := getLastD_concat _ _ _
      obtain ⟨r1, r2, r3, _⟩ := csr_fold_inv (cv.map (fun bucket => bucket.getD r []))
        flat (bases ++ [flat.length]) h1' h2' h3'
      rw [hmap]
      exact ih _ _ r1 r2 r3

/-! ## Latent neighbor construction -/

theorem pushRangeAux_some (v : Int) (n : Nat) :
    ∀ (l : Int) (vec : List (List Int)), 0 ≤ l → l + (n : Int) ≤ (vec.length : Int) →
      ∃ vec', pushRangeAux v n l vec = some vec' ∧ vec'.length = vec.length ∧
        ∀ j, j < vec.length →
          vec'.getD j [] = vec.getD j []
            ++ (if l ≤ (j : Int) ∧ (j : Int) < l + (n : Int) then [v] else []) := by
  induction n with
  | zero =>
      intro l vec h0 hn
      refine ⟨vec, rfl, rfl, ?_⟩
      intro j hj
      have hcf : ¬(l ≤ (j : Int) ∧ (j : Int) < l + ((0 : Nat) : Int)) := by
        push_cast
        omega
      rw [if_neg hcf]
      simp
  | succ n ih =>
      intro l vec h0 hn
      have hcast : ((n + 1 : Nat) : Int) = (n : Int) + 1 := by push_cast; ring
      have hbound : 0 ≤ l ∧ l.toNat < vec.length := by
        constructor
        · exact h0
        · omega
      have hpush : pushAt vec l v = some (vec.set l.toNat ((vec.getD l.toNat []) ++ [v])) := by
        unfold pushAt
        rw [if_pos hbound]
      have hlen1 : (vec.set l.toNat ((vec.getD l.toNat []) ++ [v])).length = vec.length := by
        simp
      obtain ⟨vec', hsome, hlen, hchar⟩ :=
        ih (l + 1) (vec.set l.toNat ((vec.getD l.toNat []) ++ [v])) (by omega)
          (by rw [hlen1]; omega)
      refine ⟨vec', ?_, by rw [hlen, hlen1], ?_⟩
      · show (pushAt vec l v).bind (pushRangeAux v n (l + 1)) = some vec'
        rw [hpush]
        exact hsome
      · intro j hj
        rw [hchar j (by rw [hlen1]; exact hj)]
        by_cases hjl : (j : Int) = l
        · have hjn : j = l.toNat := by omega
          subst hjn
          rw [getD_set_self _ _ _ _ (by omega)]
          have hc1 : ¬(l + 1 ≤ ((l.toNat : Nat) : Int) ∧ ((l.toNat : Nat) : Int) < l + 1 + (n : Int)) := by
            omega
          have hc2 : l ≤ ((l.toNat : Nat) : Int) ∧ ((l.toNat : Nat) : Int) < l + ((n + 1 : Nat) : Int) := by
            push_cast
            omega
          rw [if_neg hc1, if_pos hc2]
          simp
        · have hne : l.toNat ≠ j := by omega
          rw [getD_set_ne _ _ _ _ _ hne]
          by_cases hcc : l + 1 ≤ (j : Int) ∧ (j : Int) < l + 1 + (n : Int)
          · rw [if_pos hcc, if_pos (by push_cast at hcc ⊢; omega)]
          · rw [if_neg hcc, if_neg (by push_cast at hcc ⊢; omega)]

theorem pushRangeAux_neg (v : Int) (n : Nat) (hn : 1 ≤ n) (l : Int) (hl : l < 0)
    (vec : List (List Int)) : pushRangeAux v n l vec = none := by
  cases n with
  | zero => omega
  | succ m =>
      have hfail : pushAt vec l v = none := by
        unfold pushAt
        rw [if_neg (by omega)]
      show (pushAt vec l v).bind (pushRangeAux v m (l + 1)) = none
      rw [hfail]
      rfl

theorem lnv_loop (L : Nat) (presence : List (Int × Int)) (numLayers : Nat) (ls : List Nat)
    (hb : ∀ i ∈ ls, 0 ≤ (presence.getD i (-1, -1)).1
        ∧ (presence.getD i (-1, -1)).1 ≤ (presence.getD i (-1, -1)).2
        ∧ (presence.getD i (-1, -1)).2 < (numLayers : Int)) :
    ∀ acc : List (List Int), acc.length = numLayers →
      ∃ vec', ls.foldlM
          (fun vec i =>
            let pr := presence.getD i (-1, -1)
            pushRangeAux ((i : Int) - (L : Int)) (pr.2 + 1 - pr.1).toNat pr.1 vec) acc
        = some vec' ∧ vec'.length = numLayers ∧
        ∀ j, j < numLayers →
          vec'.getD j [] = acc.getD j []
            ++ ((ls.filter (fun i => decide ((presence.getD i (-1, -1)).1 ≤ (j : Int)
                  ∧ (j : Int) ≤ (presence.getD i (-1, -1)).2))).map
                (fun (i : Nat) => (i : Int) - (L : Int))) := by
  induction ls with
  | nil =>
      intro acc hacc
      refine ⟨acc, rfl, hacc, ?_⟩
      intro j hj
      simp
  | cons i ls ih =>
      intro acc hacc
      obtain ⟨hb1, hb2, hb3⟩ := hb i (by simp)
      have hb' : ∀ q ∈ ls, 0 ≤ (presence.getD q (-1, -1)).1
          ∧ (presence.getD q (-1, -1)).1 ≤ (presence.getD q (-1, -1)).2
          ∧ (presence.getD q (-1, -1)).2 < (numLayers : Int) := by
        intro q hq
        exact hb q (by simp [hq])
      have hcast : (((presence.getD i (-1, -1)).2 + 1 - (presence.getD i (-1, -1)).1).toNat : Int)
          = (presence.getD i (-1, -1)).2 + 1 - (presence.getD i (-1, -1)).1 := by
        omega
      obtain ⟨acc1, hsome1, hlen1, hchar1⟩ :=
        pushRangeAux_some ((i : Int) - (L : Int))
          ((presence.getD i (-1, -1)).2 + 1 - (presence.getD i (-1, -1)).1).toNat
          (presence.getD i (-1, -1)).1 acc hb1 (by rw [hcast, hacc]; omega)
      rw [List.foldlM_cons]
      rw [hsome1]
      obtain ⟨vec', hsome2, hlen2, hchar2⟩ := ih hb' acc1 (by rw [hlen1, hacc])
      refine ⟨vec', hsome2, hlen2, ?_⟩
      intro j hj
      rw [hchar2 j hj, hchar1 j (by rw [hacc]; exact hj)]
      rw [List.filter_cons]
      by_cases hcov : (presence.getD i (-1, -1)).1 ≤ (j : Int)
          ∧ (j : Int) ≤ (presence.getD i (-1, -1)).2
      · have hdec : decide ((presence.getD i (-1, -1)).1 ≤ (j : Int)
            ∧ (j : Int) ≤ (presence.getD i (-1, -1)).2) = true := by
          exact decide_eq_true hcov
        rw [hdec]
        have hcond : (presence.getD i (-1, -1)).1 ≤ (j : Int)
            ∧ (j : Int) < (presence.getD i (-1, -1)).1
              + ((((presence.getD i (-1, -1)).2 + 1 - (presence.getD i (-1, -1)).1).toNat : Nat) : Int) := by
          rw [hcast]
          omega
        rw [if_pos hcond]
        simp
      · have hdec : decide ((presence.getD i (-1, -1)).1 ≤ (j : Int)
            ∧ (j : Int) ≤ (presence.getD i (-1, -1)).2) = false := by
          exact decide_eq_false hcov
        rw [hdec]
        have hcond : ¬((presence.getD i (-1, -1)).1 ≤ (j : Int)
            ∧ (j : Int) < (presence.getD i (-1, -1)).1
              + ((((presence.getD i (-1, -1)).2 + 1 - (presence.getD i (-1, -1)).1).toNat : Nat) : Int)) := by
          rw [hcast]
          omega
        rw [if_neg hcond]
        simp

theorem lnv_none (L : Nat) (presence : List (Int × Int)) (ls : List Nat) (i0 : Nat)
    (hi0 : i0 ∈ ls) (hbad : presence.getD i0 (-1, -1) = (-1, -1)) :
    ∀ acc : List (List Int),
      ls.foldlM
        (fun vec i =>
          let pr := presence.getD i (-1, -1)
          pushRangeAux ((i : Int) - (L : Int)) (pr.2 + 1 - pr.1).toNat pr.1 vec) acc
      = none := by
  induction ls with
  | nil => simp at hi0
  | cons i ls ih =>
      intro acc
      rw [List.foldlM_cons]
      by_cases hii : i = i0
      · subst hii
        have hstep : pushRangeAux ((i : Int) - (L : Int))
            ((presence.getD i (-1, -1)).2 + 1 - (presence.getD i (-1, -1)).1).toNat
            (presence.getD i (-1, -1)).1 acc = none := by
          rw [hbad]
          have h1 : (((-1 : Int), (-1 : Int)).2 + 1 - ((-1 : Int), (-1 : Int)).1).toNat = 1 := by
            norm_num
          rw [h1]
          exact pushRangeAux_neg _ 1 (by omega) _ (by norm_num) acc
        rw [hstep]
        rfl
      · have hi0' : i0 ∈ ls := by
          rcases List.mem_cons.mp hi0 with h | h
          · exact absurd h.symm hii
          · exact h
        cases hf : pushRangeAux ((i : Int) - (L : Int))
            ((presence.getD i (-1, -1)).2 + 1 - (presence.getD i (-1, -1)).1).toNat
            (presence.getD i (-1, -1)).1 acc with
        | none => rfl
        | some a => exact ih hi0' a

/-! ## Presence range bounds -/

theorem getLastD_irrel {A : Type} (l : List A) (d d' : A) (h : l ≠ []) :
    l.getLastD d = l.getLastD d' := by
  rw [getLastD_eq_getD _ _ h, getLastD_eq_getD _ _ h]
  apply getD_irrel
  cases l with
  | nil => exact absurd rfl h
  | cons x xs => simp

theorem headD_mem {A : Type} (l : List A) (d : A) (h : l ≠ []) : l.headD d ∈ l := by
  cases l with
  | nil => exact absurd rfl h
  | cons x xs => simp [List.headD]

theorem getLastD_mem {A : Type} (l : List A) (d : A) (h : l ≠ []) : l.getLastD d ∈ l := by
  rw [getLastD_eq_getD _ _ h]
  apply getD_mem
  cases l with
  | nil => exact absurd rfl h
  | cons x xs => simp

theorem headD_le_of_sorted (l : List Nat) (hs : List.Pairwise (· < ·) l) (h : l ≠ []) :
    ∀ x ∈ l, l.headD 0 ≤ x := by
  cases l with
  | nil => exact absurd rfl h
  | cons a as =>
      intro x hx
      rcases List.mem_cons.mp hx with hx | hx
      · subst hx
        exact Nat.le_refl _
      · have := (List.pairwise_cons.mp hs).1 x hx
        simp [List.headD]
        omega

theorem le_getLastD_of_sorted (l : List Nat) (hs : List.Pairwise (· < ·) l) (h : l ≠ []) :
    ∀ x ∈ l, x ≤ l.getLastD 0 := by
  induction l with
  | nil => exact absurd rfl h
  | cons a as ih =>
      intro x hx
      cases has : as with
      | nil =>
          subst has
          rcases List.mem_cons.mp hx with hx | hx
          · subst hx
            exact Nat.le_refl _
          · simp at hx
      | cons b bs =>
          have hlast : (a :: as).getLastD 0 = as.getLastD 0 := by
            rw [has]
            have h1 : (a :: b :: bs).getLastD 0 = (b :: bs).getLastD a := rfl
            rw [h1]
            exact getLastD_irrel _ _ _ (by simp)
          rw [← has, hlast]
          rcases List.mem_cons.mp hx with hx | hx
          · subst hx
            have hmem : as.getLastD 0 ∈ as := getLastD_mem _ _ (by rw [has]; simp)
            have := (List.pairwise_cons.mp hs).1 _ hmem
            omega
          · exact ih (List.pairwise_cons.mp hs).2 (by rw [has]; simp) x hx

theorem filter_range_sorted (c : Nat) (p : Nat → Bool) :
    List.Pairwise (· < ·) ((List.range c).filter p) :=
  (List.pairwise_lt_range c).filter p

/-- Characterization of the final presence range of a latent that has at
least one child: one less than the layer indices of its first and last
child, which are the minimal resp. maximal layers among its children. -/
theorem presence_final (L V : Nat) (S : Nat → Nat → Bool) (v : Nat) (hv : v < L) :
    (compile L V S).presence.getD v (-1, -1) = presSpec L V S v V :=
  (inv_holds L V S V (Nat.le_refl V)).pres v hv

theorem presence_bounds (L V : Nat) (S : Nat → Nat → Bool) (v : Nat) (hv : v < L)
    (hchild : ∃ c, c < V ∧ S v c = true) :
    0 ≤ ((compile L V S).presence.getD v (-1, -1)).1 ∧
    ((compile L V S).presence.getD v (-1, -1)).1
      ≤ ((compile L V S).presence.getD v (-1, -1)).2 ∧
    ((compile L V S).presence.getD v (-1, -1)).2 + 2
      ≤ ((compile L V S).layers.length : Int) := by
  rw [presence_final L V S v hv]
  unfold presSpec
  have hlne : (List.range V).filter (fun d => S v d) ≠ [] := by
    obtain ⟨c, hc, hS⟩ := hchild
    intro hnil
    have hmm : c ∈ (List.range V).filter (fun d => S v d) :=
      List.mem_filter.mpr ⟨List.mem_range.mpr hc, hS⟩
    rw [hnil] at hmm
    simp at hmm
  simp only [hlne, if_false, ite_false]
  have hsorted := filter_range_sorted V (fun d => S v d)
  have hhead : ((List.range V).filter (fun d => S v d)).headD 0
      ∈ (List.range V).filter (fun d => S v d) := headD_mem _ _ hlne
  have hlastm : ((List.range V).filter (fun d => S v d)).getLastD 0
      ∈ (List.range V).filter (fun d => S v d) := getLastD_mem _ _ hlne
  have hle : ((List.range V).filter (fun d => S v d)).headD 0
      ≤ ((List.range V).filter (fun d => S v d)).getLastD 0 :=
    le_getLastD_of_sorted _ hsorted hlne _ hhead
  have hlastV : ((List.range V).filter (fun d => S v d)).getLastD 0 < V :=
    List.mem_range.mp (List.mem_filter.mp hlastm).1
  have hmono := layerOf_mono L V S hle
  have hpos := layerOf_pos L V S (((List.range V).filter (fun d => S v d)).headD 0)
  have hF := (inv_holds L V S V (Nat.le_refl V)).layerF
    (((List.range V).filter (fun d => S v d)).getLastD 0) hlastV
  unfold compile
  refine ⟨by omega, by omega, by omega⟩

theorem buildChildren_pairwise (tot : Nat) (cv : List (List (List Nat))) :
    List.Pairwise (· ≤ ·) (buildChildren tot cv).2 := by
  have heq : buildChildren tot cv
      = (List.range tot).foldl
          (fun acc r => cv.foldl (fun acc2 bucket => csrStep acc2 (bucket.getD r []))
            (acc.1, acc.2 ++ [acc.1.length]))
          ([], []) := rfl
  rw [heq]
  exact buildChildren_loop cv (List.range tot) [] [] (by simp) (by simp) (by simp)


/-! ## Claim theorems: graph compiler -/

theorem getD_map_range {A : Type} (n : Nat) (f : Nat → A) (l : Nat) (d : A) (h : l < n) :
    ((List.range n).map f).getD l d = f l := by
  induction n generalizing l with
  | zero => omega
  | succ m ih =>
      rw [List.range_succ, List.map_append]
      by_cases hl : l < m
      · rw [getD_append_left _ _ _ _ (by simp; omega)]
        exact ih l hl
      · have : l = m := by omega
        subst this
        rw [getD_append_right _ _ _ _ (by simp)]
        simp

/-- C6: for every structure matrix whose visible-column order respects a
topological order (every visible parent of a node has a smaller index), the
compiled layering assigns each visible node to exactly one layer: its layer
index lies in `[1, num_layers)` (layer 0 is the reserved sentinel), every
layer record's `num` field counts exactly the visible nodes assigned to it,
and every parent of a node is either a latent node or a visible node whose
layer index is strictly smaller. -/
theorem c6_layering (L V : Nat) (S : Nat → Nat → Bool)
    (htop : ∀ r, r < L + V → ∀ c, c < V → L ≤ r → S r c = true → r < L + c) :
    (∀ c, c < V → 1 ≤ layerOf L V S c ∧ layerOf L V S c < (compile L V S).layers.length) ∧
    (∀ i, i < (compile L V S).layers.length →
      ((compile L V S).layers.getD i default).num
        = ((List.range V).filter (fun d => layerOf L V S d = i)).length) ∧
    (∀ c, c < V → ∀ p ∈ parentsOfChild L V S c,
      p < 0 ∨ (0 ≤ p ∧ layerOf L V S p.toNat < layerOf L V S c)) := by
  refine ⟨?_, ?_, ?_⟩
  · intro c hc
    refine ⟨layerOf_pos L V S c, ?_⟩
    have h1 := layerOf_len L V S c
    have h2 : (compileAux L V S (c + 1)).layers.length
        ≤ (compileAux L V S V).layers.length :=
      compileAux_len_mono L V S (by omega)
    unfold compile
    omega
  · exact (inv_holds L V S V (Nat.le_refl V)).nums
  · intro c hc p hp
    by_cases hp0 : p < 0
    · exact Or.inl hp0
    · refine Or.inr ⟨by omega, ?_⟩
      have hdc : p.toNat < c :=
        parentsOfChild_visible_lt L V S c (fun r hr hl hS => htop r hr c hc hl hS) p hp (by omega)
      exact parent_layer_lt L V S c hc p hp (by omega) hdc

/-- C6 witness: the layering property instantiated on the concrete
`exampleStructureA` graph (one latent, two visible nodes, edges latent→0 and
0→1), whose column order is topological. -/
theorem c6_layering_witness :
    (∀ c, c < 2 → 1 ≤ layerOf 1 2 exampleStructureA c
      ∧ layerOf 1 2 exampleStructureA c < (compile 1 2 exampleStructureA).layers.length) ∧
    (∀ i, i < (compile 1 2 exampleStructureA).layers.length →
      ((compile 1 2 exampleStructureA).layers.getD i default).num
        = ((List.range 2).filter (fun d => layerOf 1 2 exampleStructureA d = i)).length) ∧
    (∀ c, c < 2 → ∀ p ∈ parentsOfChild 1 2 exampleStructureA c,
      p < 0 ∨ (0 ≤ p ∧ layerOf 1 2 exampleStructureA p.toNat < layerOf 1 2 exampleStructureA c)) :=
  c6_layering 1 2 exampleStructureA (by decide)

/-- C9: the compiled parent and child CSR offset arrays are monotone
non-decreasing, and the final parent offset equals the total number of edges
(true entries) of the structure matrix. The offset arrays are exactly the
ones `make_structures` builds in lines 161-185, before the latent-neighbor
loop runs. -/
theorem c9_csr_offsets (L V : Nat) (S : Nat → Nat → Bool) :
    List.Pairwise (· ≤ ·) (buildParents (compile L V S).parentsVec).2 ∧
    List.Pairwise (· ≤ ·) (buildChildren (L + V) (compile L V S).childrenVec).2 ∧
    (buildParents (compile L V S).parentsVec).2.getLastD 0 = totalEdgeCount L V S := by
  obtain ⟨hpair, hlast⟩ := buildParents_props (compile L V S).parentsVec
  refine ⟨hpair, buildChildren_pairwise _ _, ?_⟩
  rw [hlast]
  have hpv := (inv_holds L V S V (Nat.le_refl V)).parVec
  unfold compile
  rw [hpv]
  simp only [Nat.sub_self, List.replicate, List.append_nil, List.map_map]
  unfold totalEdgeCount
  congr 1
  apply List.map_congr_left
  intro c _
  simp [parentsOfChild]

/-- C10: the latent-neighbor construction (lines 187-197) stays in bounds
precisely under the precondition that every latent node has at least one
outgoing edge. A latent whose structure row is all false keeps its initial
presence range `(-1, -1)`, and the per-layer loop then indexes the layer
table at position `-1`, which the model reports as `none` (out of bounds). -/
theorem c10_latent_safety (L V : Nat) (S : Nat → Nat → Bool) :
    ((∀ v, v < L → ∃ c, c < V ∧ S v c = true) → (make_structures L V S).isSome = true) ∧
    (∀ v, v < L → (∀ c, c < V → S v c = false) →
      (compile L V S).presence.getD v (-1, -1) = (-1, -1)
        ∧ make_structures L V S = none) := by
  constructor
  · intro hall
    have hb : ∀ i ∈ List.range L, 0 ≤ ((compile L V S).presence.getD i (-1, -1)).1
        ∧ ((compile L V S).presence.getD i (-1, -1)).1
          ≤ ((compile L V S).presence.getD i (-1, -1)).2
        ∧ ((compile L V S).presence.getD i (-1, -1)).2
          < ((compile L V S).layers.length : Int) := by
      intro i hi
      have hiL := List.mem_range.mp hi
      obtain ⟨h1, h2, h3⟩ := presence_bounds L V S i hiL (hall i hiL)
      exact ⟨h1, h2, by omega⟩
    obtain ⟨vec, hsome, _, _⟩ := lnv_loop L (compile L V S).presence
      (compile L V S).layers.length (List.range L) hb
      (List.replicate (compile L V S).layers.length []) (by simp)
    have hlnv : latentNeighborsVec L (compile L V S).layers.length (compile L V S).presence
        = some vec := hsome
    unfold make_structures
    dsimp only
    rw [hlnv]
    rfl
  · intro v hv hnone
    have hfilter : (List.range V).filter (fun d => S v d) = [] := by
      rw [List.filter_eq_nil_iff]
      intro a ha
      rw [hnone a (List.mem_range.mp ha)]
      simp
    have hpres : (compile L V S).presence.getD v (-1, -1) = (-1, -1) := by
      rw [presence_final L V S v hv]
      unfold presSpec
      simp only [hfilter, if_true, ite_true]
    refine ⟨hpres, ?_⟩
    have hnone2 : latentNeighborsVec L (compile L V S).layers.length (compile L V S).presence
        = none :=
      lnv_none L (compile L V S).presence (List.range L) v (List.mem_range.mpr hv) hpres _
    unfold make_structures
    dsimp only
    rw [hnone2]
    rfl

/-- C10 witness: the construction succeeds on `exampleStructureA` (every
latent has a child) and fails on `exampleStructureB` (its only latent is
childless, presence range stuck at `(-1, -1)`). -/
theorem c10_latent_safety_witness :
    (make_structures 1 2 exampleStructureA).isSome = true ∧
    ((compile 1 1 exampleStructureB).presence.getD 0 (-1, -1) = (-1, -1)
      ∧ make_structures 1 1 exampleStructureB = none) :=
  ⟨(c10_latent_safety 1 2 exampleStructureA).1 (by decide),
    (c10_latent_safety 1 1 exampleStructureB).2 0 (by decide) (by decide)⟩

/-- C8 (amended): for every latent node with at least one outgoing edge, the
compiled presence range equals `(m - 1, M - 1)` where `[m, M]` is the
inclusive range of layer indices (in the layer records' own numbering, where
position 0 is the sentinel) containing the latent's edge targets — one less
than the claim's `[minLayer, maxLayer]` — and each layer's recorded latent
width equals the number of distinct latents whose stored presence range
covers that layer. -/
theorem c8_presence_range (L V : Nat) (S : Nat → Nat → Bool)
    (hall : ∀ v, v < L → ∃ c, c < V ∧ S v c = true) :
    (∀ v, v < L →
      ∃ cmin cmax, (cmin < V ∧ S v cmin = true) ∧ (cmax < V ∧ S v cmax = true) ∧
        (compile L V S).presence.getD v (-1, -1)
          = (((layerOf L V S cmin : Nat) : Int) - 1, ((layerOf L V S cmax : Nat) : Int) - 1) ∧
        (∀ c, c < V → S v c = true →
          layerOf L V S cmin ≤ layerOf L V S c ∧ layerOf L V S c ≤ layerOf L V S cmax)) ∧
    (∃ out, make_structures L V S = some out ∧
      out.layers.length = (compile L V S).layers.length ∧
      ∀ l, l < out.layers.length →
        (out.layers.getD l default).latWidth
          = ((List.range L).filter (fun v =>
              decide (((compile L V S).presence.getD v (-1, -1)).1 ≤ (l : Int)
                ∧ (l : Int) ≤ ((compile L V S).presence.getD v (-1, -1)).2))).length) := by
  constructor
  · intro v hv
    have hlne : (List.range V).filter (fun d => S v d) ≠ [] := by
      obtain ⟨c, hc, hS⟩ := hall v hv
      intro hnil
      have hmm : c ∈ (List.range V).filter (fun d => S v d) :=
        List.mem_filter.mpr ⟨List.mem_range.mpr hc, hS⟩
      rw [hnil] at hmm
      simp at hmm
    have hsorted := filter_range_sorted V (fun d => S v d)
    have hheadm := headD_mem ((List.range V).filter (fun d => S v d)) 0 hlne
    have hlastm := getLastD_mem ((List.range V).filter (fun d => S v d)) 0 hlne
    refine ⟨((List.range V).filter (fun d => S v d)).headD 0,
      ((List.range V).filter (fun d => S v d)).getLastD 0, ?_, ?_, ?_, ?_⟩
    · exact ⟨List.mem_range.mp (List.mem_filter.mp hheadm).1, (List.mem_filter.mp hheadm).2⟩
    · exact ⟨List.mem_range.mp (List.mem_filter.mp hlastm).1, (List.mem_filter.mp hlastm).2⟩
    · rw [presence_final L V S v hv]
      unfold presSpec
      simp only [hlne, if_false, ite_false]
    · intro c hc hS
      have hcm : c ∈ (List.range V).filter (fun d => S v d) :=
        List.mem_filter.mpr ⟨List.mem_range.mpr hc, hS⟩
      exact ⟨layerOf_mono L V S (headD_le_of_sorted _ hsorted hlne c hcm),
        layerOf_mono L V S (le_getLastD_of_sorted _ hsorted hlne c hcm)⟩
  · have hb : ∀ i ∈ List.range L, 0 ≤ ((compile L V S).presence.getD i (-1, -1)).1
        ∧ ((compile L V S).presence.getD i (-1, -1)).1
          ≤ ((compile L V S).presence.getD i (-1, -1)).2
        ∧ ((compile L V S).presence.getD i (-1, -1)).2
          < ((compile L V S).layers.length : Int) := by
      intro i hi
      have hiL := List.mem_range.mp hi
      obtain ⟨h1, h2, h3⟩ := presence_bounds L V S i hiL (hall i hiL)
      exact ⟨h1, h2, by omega⟩
    obtain ⟨vec, hsome, hlen, hchar⟩ := lnv_loop L (compile L V S).presence
      (compile L V S).layers.length (List.range L) hb
      (List.replicate (compile L V S).layers.length []) (by simp)
    have hlnv : latentNeighborsVec L (compile L V S).layers.length (compile L V S).presence
        = some vec := hsome
    have hms : make_structures L V S
        = some
          { state := compile L V S
            parents := (buildParents (compile L V S).parentsVec).1
            parentsBases := (buildParents (compile L V S).parentsVec).2
            children := (buildChildren (L + V) (compile L V S).childrenVec).1
            childrenBases := (buildChildren (L + V) (compile L V S).childrenVec).2
            latentNeighbors := vec
            layers := (List.range (compile L V S).layers.length).map fun l =>
              { (compile L V S).layers.getD l default
                with latWidth := (vec.getD l []).length } } := by
      unfold make_structures
      dsimp only
      rw [hlnv]
      rfl
    refine ⟨_, hms, by simp, ?_⟩
    intro l hl
    simp only [List.length_map, List.length_range] at hl
    rw [getD_map_range _ _ _ _ hl]
    show (vec.getD l []).length = _
    rw [hchar l hl]
    rw [getD_replicate _ _ _ _ hl]
    simp

/-- C8 witness: the amended presence-range property on `exampleStructureA`. -/
theorem c8_presence_range_witness :
    (∀ v, v < 1 →
      ∃ cmin cmax, (cmin < 2 ∧ exampleStructureA v cmin = true)
        ∧ (cmax < 2 ∧ exampleStructureA v cmax = true) ∧
        (compile 1 2 exampleStructureA).presence.getD v (-1, -1)
          = (((layerOf 1 2 exampleStructureA cmin : Nat) : Int) - 1,
              ((layerOf 1 2 exampleStructureA cmax : Nat) : Int) - 1) ∧
        (∀ c, c < 2 → exampleStructureA v c = true →
          layerOf 1 2 exampleStructureA cmin ≤ layerOf 1 2 exampleStructureA c
            ∧ layerOf 1 2 exampleStructureA c ≤ layerOf 1 2 exampleStructureA cmax)) ∧
    (∃ out, make_structures 1 2 exampleStructureA = some out ∧
      out.layers.length = (compile 1 2 exampleStructureA).layers.length ∧
      ∀ l, l < out.layers.length →
        (out.layers.getD l default).latWidth
          = ((List.range 1).filter (fun v =>
              decide (((compile 1 2 exampleStructureA).presence.getD v (-1, -1)).1 ≤ (l : Int)
                ∧ (l : Int) ≤ ((compile 1 2 exampleStructureA).presence.getD v (-1, -1)).2))).length) :=
  c8_presence_range 1 2 exampleStructureA (by decide)

/-- C8 counterexample: on the one-edge graph `exampleStructureC` (latent 0 →
visible 0), the only edge target is assigned to layer index 2, so the claimed
presence range `[minLayer, maxLayer]` would be `(2, 2)`, but the compiled
range is `(1, 1)`. -/
theorem c8_presence_counterexample :
    (compile 1 1 exampleStructureC).presence.getD 0 (-1, -1) = (1, 1) ∧
    layerOf 1 1 exampleStructureC 0 = 2 ∧
    (∀ c, c < 1 → exampleStructureC 0 c = true → layerOf 1 1 exampleStructureC c = 2) ∧
    ((1 : Int), (1 : Int)) ≠ ((2 : Int), (2 : Int)) := by
  refine ⟨by decide, by decide, ?_, by decide⟩
  intro c hc _
  interval_cases c
  decide

/-! ## Loss evaluator theorems -/

namespace Val

variable {L V : Nat}

theorem visible_covariance_cacheInv (s : SolverState L V) (M : Matrix (Fin V) (Fin V) ℝ) :
    visible_covariance { s with sampleCovarianceInv := some M } = visible_covariance s := rfl

theorem proxy_loss_formula (s : SolverState L V) (S : Matrix (Fin V) (Fin V) ℝ)
    (hset : s.sampleCovariance = some S)
    (hinv : s.sampleCovarianceInv = none ∨ s.sampleCovarianceInv = some S⁻¹) :
    (kullback_leibler_proxy_loss s).map Prod.fst
      = some ((S⁻¹ * visible_covariance s).trace
          - torchLogdet (visible_covariance s)) := by
  unfold kullback_leibler_proxy_loss get_sample_covariance_inv
  rcases hinv with h | h <;> rw [h] <;> simp only [hset, Option.map_some'] <;> rfl

theorem kl_loss_formula (s : SolverState L V) (S : Matrix (Fin V) (Fin V) ℝ)
    (hset : s.sampleCovariance = some S)
    (hinv : s.sampleCovarianceInv = none ∨ s.sampleCovarianceInv = some S⁻¹)
    (hld : s.sampleCovarianceLogdet = none ∨ s.sampleCovarianceLogdet = some (torchLogdet S)) :
    (kullback_leibler_loss s).map Prod.fst
      = some ((((S⁻¹ * visible_covariance s).trace
          - torchLogdet (visible_covariance s)) - (V : ℝ) + torchLogdet S) / 2) := by
  unfold kullback_leibler_loss kullback_leibler_proxy_loss
    get_sample_covariance_inv get_sample_covariance_logdet
  rcases hinv with h1 | h1 <;> rcases hld with h2 | h2 <;>
    rw [h1] <;>
    simp only [hset, h2, Option.map_some', Option.some_bind, Option.bind_some] <;> rfl

/-- C4 (amended): whenever the visible covariance exactly equals the set
sample covariance, the sample covariance is well-conditioned (invertible),
and the lazy inverse/log-determinant caches are unset or hold the values
derived from the current sample covariance, `klLoss()` returns 0, for any
matrix size. (The cache proviso is forced by the stale-cache behavior
exhibited in the C4 counterexample.) -/
theorem c4_kl_identical_zero (s : SolverState L V) (S : Matrix (Fin V) (Fin V) ℝ)
    (hset : s.sampleCovariance = some S)
    (hinv : s.sampleCovarianceInv = none ∨ s.sampleCovarianceInv = some S⁻¹)
    (hld : s.sampleCovarianceLogdet = none ∨ s.sampleCovarianceLogdet = some (torchLogdet S))
    (hvis : visible_covariance s = S)
    (hdet : IsUnit S.det) :
    (kullback_leibler_loss s).map Prod.fst = some 0 := by
  rw [kl_loss_formula s S hset hinv hld, hvis]
  rw [Matrix.nonsing_inv_mul S hdet, Matrix.trace_one]
  congr 1
  rw [Fintype.card_fin]
  ring

/-- C5 (amended): on every `backward()` call with a set sample covariance
whose lazy inverse cache is unset or derived from it, the gradient seed
written before the reverse sweep equals `S⁻¹ - Σ⁻¹` (with `Σ` the visible
covariance of the state at call time, freshly inverted — nothing about `Σ⁻¹`
is read from any cache), it is deposited into the visible rows of the
covariance-gradient buffer with index `(num_layers() + 1) % 2`, and the other
buffer as well as the latent rows and the covariance itself are untouched.
(The cache proviso is forced by the stale-cache behavior exhibited in the C5
counterexample.) -/
theorem c5_gradient_seed (s : SolverState L V) (S : Matrix (Fin V) (Fin V) ℝ)
    (hset : s.sampleCovariance = some S)
    (hinv : s.sampleCovarianceInv = none ∨ s.sampleCovarianceInv = some S⁻¹) :
    ∃ s', kullback_leibler_loss_backward s = some s' ∧
      (∀ i j : Fin V,
        s'.covarianceGrad (gradBufferIndex s.numLayers) (Fin.natAdd L i) j
          = (S⁻¹ - (visible_covariance s)⁻¹) i j) ∧
      (∀ b : Fin 2, b ≠ gradBufferIndex s.numLayers →
        s'.covarianceGrad b = s.covarianceGrad b) ∧
      (∀ (r : Fin (L + V)) (j : Fin V), (r : Nat) < L →
        s'.covarianceGrad (gradBufferIndex s.numLayers) r j
          = s.covarianceGrad (gradBufferIndex s.numLayers) r j) ∧
      s'.covariance = s.covariance := by
  have hx : ∃ M s1, get_sample_covariance_inv s = some (M, s1) ∧ M = S⁻¹
      ∧ s1.covariance = s.covariance ∧ s1.covarianceGrad = s.covarianceGrad
      ∧ s1.numLayers = s.numLayers := by
    unfold get_sample_covariance_inv
    rcases hinv with h | h
    · rw [h, hset]
      exact ⟨S⁻¹, _, rfl, rfl, rfl, rfl, rfl⟩
    · rw [h]
      exact ⟨S⁻¹, s, rfl, rfl, rfl, rfl, rfl⟩
  obtain ⟨M, s1, hMs, hM, hcov, hgrad, hnum⟩ := hx
  unfold kullback_leibler_loss_backward
  rw [hMs]
  simp only [Option.map_some']
  refine ⟨_, rfl, ?_, ?_, ?_, hcov⟩
  · intro i j
    dsimp only
    rw [if_pos rfl]
    have hle : L ≤ ((Fin.natAdd L i : Fin (L + V)) : Nat) := by
      simp [Fin.natAdd]
    simp only [Matrix.of_apply]
    rw [dif_pos hle]
    have hvis1 : visible_covariance s1 = visible_covariance s := by
      unfold visible_covariance
      rw [hcov]
    rw [hM, hvis1]
    have hidx : (⟨((Fin.natAdd L i : Fin (L + V)) : Nat) - L,
        by have := i.isLt; simp only [Fin.natAdd]; omega⟩ : Fin V) = i := by
      apply Fin.ext
      simp [Fin.natAdd]
    rw [hidx]
  · intro b hb
    dsimp only
    rw [hnum] at *
    rw [if_neg hb, hgrad]
  · intro r j hr
    dsimp only
    rw [if_pos rfl]
    simp only [Matrix.of_apply]
    rw [dif_neg (by omega), hgrad]

end Val

/-! ## Concrete stale-cache evaluations -/

namespace Val

theorem sampleOne_inv : sampleOne⁻¹ = 1 := by
  unfold sampleOne
  exact inv_one

theorem torchLogdet_one : torchLogdet sampleOne = 0 := by
  unfold sampleOne torchLogdet
  simp

theorem sampleTwo_inv : sampleTwo⁻¹ = Matrix.of ![![(2 : ℝ)⁻¹]] := by
  apply Matrix.inv_eq_right_inv
  ext i j
  fin_cases i
  fin_cases j
  norm_num [sampleTwo, Matrix.mul_apply]

theorem torchLogdet_two : torchLogdet sampleTwo = Real.log 2 := by
  unfold sampleTwo torchLogdet
  rw [Matrix.det_fin_one]
  simp

theorem visible_staleState2 : visible_covariance staleState2 = 1 := by
  ext i j
  fin_cases i
  fin_cases j
  simp [visible_covariance, staleState2, staleState1, staleState0, set_sample_covariance]

theorem visible_staleState3 : visible_covariance staleState3 = 1 := by
  ext i j
  fin_cases i
  fin_cases j
  simp [visible_covariance, staleState3, staleState2, staleState1, staleState0,
    set_sample_covariance]

theorem visible_staleState4 : visible_covariance staleState4 = sampleTwo := by
  ext i j
  fin_cases i
  fin_cases j
  simp [visible_covariance, staleState4, sampleTwo]

theorem visible_staleState5 : visible_covariance staleState5 = 1 := by
  ext i j
  fin_cases i
  fin_cases j
  simp [visible_covariance, staleState5, staleState4]

theorem visible_freshState : visible_covariance freshState = sampleOne := by
  ext i j
  fin_cases i
  fin_cases j
  simp [visible_covariance, freshState, sampleOne]

end Val

/-! ## Claim theorems: loss evaluator and gradient seed -/

/-- C1 (code bug): `set_sample_covariance` (lines 277-285) does not clear the
`sample_covariance_inv` / `sample_covariance_logdet` caches, and the getters
(lines 287-301) recompute only when the cache tensor is empty. In the run
`set([[1]]); klLoss(); set([[2]]); klLoss()` the second query still uses the
inverse and log-determinant of `[[1]]` and returns 0, whereas the value the
claim demands — computed from the newly set `[[2]]` — is `(ln 2 - 1/2)/2 ≠ 0`. -/
theorem c1_stale_cache :
    Val.kullback_leibler_loss Val.staleState1 = some (0, Val.staleState2) ∧
    Val.staleState3 = Val.set_sample_covariance Val.staleState2 Val.sampleTwo ∧
    Val.staleState3.sampleCovariance = some Val.sampleTwo ∧
    Val.staleState3.sampleCovarianceInv = some Val.sampleOne⁻¹ ∧
    (Val.kullback_leibler_loss Val.staleState3).map Prod.fst = some 0 ∧
    ((Val.sampleTwo⁻¹ * Val.visible_covariance Val.staleState3).trace
        - Val.torchLogdet (Val.visible_covariance Val.staleState3)
        - ((1 : Nat) : ℝ) + Val.torchLogdet Val.sampleTwo) / 2 ≠ 0 := by
  have hstep1 : Val.kullback_leibler_loss Val.staleState1
      = some ((((Val.sampleOne⁻¹ * Val.visible_covariance Val.staleState2).trace
          - Val.torchLogdet (Val.visible_covariance Val.staleState2)) - ((1 : Nat) : ℝ)
          + Val.torchLogdet Val.sampleOne) / 2, Val.staleState2) := rfl
  have hval1 : (((Val.sampleOne⁻¹ * Val.visible_covariance Val.staleState2).trace
      - Val.torchLogdet (Val.visible_covariance Val.staleState2)) - ((1 : Nat) : ℝ)
      + Val.torchLogdet Val.sampleOne) / 2 = 0 := by
    rw [Val.sampleOne_inv, Val.visible_staleState2, Val.torchLogdet_one, one_mul,
      Matrix.trace_one]
    unfold Val.torchLogdet
    norm_num
  have hstep3 : Val.kullback_leibler_loss Val.staleState3
      = some ((((Val.sampleOne⁻¹ * Val.visible_covariance Val.staleState3).trace
          - Val.torchLogdet (Val.visible_covariance Val.staleState3)) - ((1 : Nat) : ℝ)
          + Val.torchLogdet Val.sampleOne) / 2, Val.staleState3) := rfl
  have hval3 : (((Val.sampleOne⁻¹ * Val.visible_covariance Val.staleState3).trace
      - Val.torchLogdet (Val.visible_covariance Val.staleState3)) - ((1 : Nat) : ℝ)
      + Val.torchLogdet Val.sampleOne) / 2 = 0 := by
    rw [Val.sampleOne_inv, Val.visible_staleState3, Val.torchLogdet_one, one_mul,
      Matrix.trace_one]
    unfold Val.torchLogdet
    norm_num
  refine ⟨by rw [hstep1, hval1], rfl, rfl, rfl,
    by rw [hstep3, Option.map_some']; exact congrArg some hval3, ?_⟩
  rw [Val.sampleTwo_inv, Val.visible_staleState3, Val.torchLogdet_two, mul_one,
    Matrix.trace_fin_one]
  unfold Val.torchLogdet
  simp only [Matrix.of_apply, Matrix.cons_val_zero, Matrix.det_one, Real.log_one]
  have hlog := Real.log_two_gt_d9
  intro heq
  norm_num at heq
  nlinarith

/-- C3 counterexample: in the stale state reached by `set([[1]]); klLoss();
set([[2]])`, the set sample covariance is `[[2]]` and the visible covariance
is `[[1]]`, but `proxyLoss()` returns 1 — the value computed with the cached
inverse of `[[1]]` — instead of `trace([[2]]⁻¹·[[1]]) - logdet([[1]]) = 1/2`
demanded by the claim. -/
theorem c3_stale_counterexample :
    Val.staleState3.sampleCovariance = some Val.sampleTwo ∧
    (Val.kullback_leibler_proxy_loss Val.staleState3).map Prod.fst = some 1 ∧
    (Val.sampleTwo⁻¹ * Val.visible_covariance Val.staleState3).trace
      - Val.torchLogdet (Val.visible_covariance Val.staleState3) = (2 : ℝ)⁻¹ ∧
    (1 : ℝ) ≠ (2 : ℝ)⁻¹ := by
  have hstep : Val.kullback_leibler_proxy_loss Val.staleState3
      = some ((Val.sampleOne⁻¹ * Val.visible_covariance Val.staleState3).trace
          - Val.torchLogdet (Val.visible_covariance Val.staleState3), Val.staleState3) := rfl
  have hval : (Val.sampleOne⁻¹ * Val.visible_covariance Val.staleState3).trace
      - Val.torchLogdet (Val.visible_covariance Val.staleState3) = 1 := by
    rw [Val.sampleOne_inv, Val.visible_staleState3, one_mul, Matrix.trace_one]
    unfold Val.torchLogdet
    norm_num
  refine ⟨rfl, by rw [hstep, Option.map_some']; exact congrArg some hval, ?_, by norm_num⟩
  rw [Val.sampleTwo_inv, Val.visible_staleState3, mul_one, Matrix.trace_fin_one]
  unfold Val.torchLogdet
  simp

/-- C3 (amended): for every solver state whose sample covariance is set to
`S` and whose lazy inverse/log-determinant caches are unset or hold the
values derived from `S`, `proxyLoss()` returns
`trace(S⁻¹·Σ) - logDet(Σ)` and `klLoss()` returns
`(proxyLoss() - V + logDet(S)) / 2`, where `Σ` is the current visible
covariance and `V` the number of visible nodes. (The cache proviso is forced
by the stale-cache behavior exhibited in the counterexample.) -/
theorem c3_loss_formulas (L V : Nat) (s : Val.SolverState L V)
    (S : Matrix (Fin V) (Fin V) ℝ)
    (hset : s.sampleCovariance = some S)
    (hinv : s.sampleCovarianceInv = none ∨ s.sampleCovarianceInv = some S⁻¹)
    (hld : s.sampleCovarianceLogdet = none
      ∨ s.sampleCovarianceLogdet = some (Val.torchLogdet S)) :
    (Val.kullback_leibler_proxy_loss s).map Prod.fst
      = some ((S⁻¹ * Val.visible_covariance s).trace
          - Val.torchLogdet (Val.visible_covariance s)) ∧
    (Val.kullback_leibler_loss s).map Prod.fst
      = some ((((S⁻¹ * Val.visible_covariance s).trace
          - Val.torchLogdet (Val.visible_covariance s)) - (V : ℝ)
          + Val.torchLogdet S) / 2) :=
  ⟨Val.proxy_loss_formula s S hset hinv, Val.kl_loss_formula s S hset hinv hld⟩

/-- C3 witness: the loss formulas instantiated on the fresh state with sample
covariance `[[1]]` and empty caches. -/
theorem c3_loss_formulas_witness :
    (Val.kullback_leibler_proxy_loss Val.freshState).map Prod.fst
      = some ((Val.sampleOne⁻¹ * Val.visible_covariance Val.freshState).trace
          - Val.torchLogdet (Val.visible_covariance Val.freshState)) ∧
    (Val.kullback_leibler_loss Val.freshState).map Prod.fst
      = some ((((Val.sampleOne⁻¹ * Val.visible_covariance Val.freshState).trace
          - Val.torchLogdet (Val.visible_covariance Val.freshState)) - ((1 : Nat) : ℝ)
          + Val.torchLogdet Val.sampleOne) / 2) :=
  c3_loss_formulas 0 1 Val.freshState Val.sampleOne rfl (Or.inl rfl) (Or.inl rfl)

/-- C4 counterexample: a reachable stale-cache state where the visible
covariance `[[2]]` exactly equals the set, well-conditioned sample covariance
`[[2]]`, yet `klLoss()` returns `(1 - ln 2)/2 ≠ 0` because the cached
inverse/log-determinant still come from the previously set `[[1]]`. -/
theorem c4_stale_counterexample :
    Val.staleState4.sampleCovariance = some Val.sampleTwo ∧
    Val.visible_covariance Val.staleState4 = Val.sampleTwo ∧
    IsUnit Val.sampleTwo.det ∧
    (Val.kullback_leibler_loss Val.staleState4).map Prod.fst
      = some ((1 - Real.log 2) / 2) ∧
    (1 - Real.log 2) / 2 ≠ 0 := by
  have hdet : Val.sampleTwo.det = 2 := by
    unfold Val.sampleTwo
    rw [Matrix.det_fin_one]
    simp
  have hstep : Val.kullback_leibler_loss Val.staleState4
      = some ((((Val.sampleOne⁻¹ * Val.visible_covariance Val.staleState4).trace
          - Val.torchLogdet (Val.visible_covariance Val.staleState4)) - ((1 : Nat) : ℝ)
          + Val.torchLogdet Val.sampleOne) / 2, Val.staleState4) := rfl
  have hval : (((Val.sampleOne⁻¹ * Val.visible_covariance Val.staleState4).trace
      - Val.torchLogdet (Val.visible_covariance Val.staleState4)) - ((1 : Nat) : ℝ)
      + Val.torchLogdet Val.sampleOne) / 2 = (1 - Real.log 2) / 2 := by
    rw [Val.sampleOne_inv, Val.visible_staleState4, Val.torchLogdet_one, one_mul,
      Val.torchLogdet_two, Matrix.trace_fin_one]
    have h2 : Val.sampleTwo 0 0 = 2 := by
      unfold Val.sampleTwo
      simp
    rw [h2]
    norm_num
    ring
  have hne : (1 - Real.log 2) / 2 ≠ 0 := by
    have hlog := Real.log_two_lt_d9
    intro heq
    norm_num at heq hlog
    nlinarith
  exact ⟨rfl, Val.visible_staleState4, by rw [hdet]; norm_num,
    by rw [hstep, Option.map_some']; exact congrArg some hval, hne⟩

/-- C4 witness: `klLoss() = 0` on the fresh state whose visible covariance
equals the set sample covariance `[[1]]` with empty caches. -/
theorem c4_kl_identical_zero_witness :
    (Val.kullback_leibler_loss Val.freshState).map Prod.fst = some 0 :=
  Val.c4_kl_identical_zero Val.freshState Val.sampleOne rfl (Or.inl rfl) (Or.inl rfl)
    Val.visible_freshState (by unfold Val.sampleOne; rw [Matrix.det_one]; exact isUnit_one)

/-- C5 counterexample: in the stale state with visible covariance `[[1]]`,
set sample covariance `[[2]]` and cached inverse from `[[1]]`, the gradient
seed written by `backward()` is `[[0]]` — not the claimed
`S⁻¹ - Σ⁻¹ = [[-1/2]]`. -/
theorem c5_stale_counterexample :
    Val.staleState5.sampleCovariance = some Val.sampleTwo ∧
    (∃ s', Val.kullback_leibler_loss_backward Val.staleState5 = some s' ∧
      s'.covarianceGrad (Val.gradBufferIndex 1) 0 0 = 0) ∧
    (Val.sampleTwo⁻¹ - (Val.visible_covariance Val.staleState5)⁻¹) 0 0 = -(2 : ℝ)⁻¹ ∧
    (0 : ℝ) ≠ -(2 : ℝ)⁻¹ := by
  refine ⟨rfl, ?_, ?_, by norm_num⟩
  · have hstep : Val.kullback_leibler_loss_backward Val.staleState5
        = some { Val.staleState5 with
            covarianceGrad := fun b =>
              if b = Val.gradBufferIndex Val.staleState5.numLayers then
                Matrix.of fun r j =>
                  if h : (0 : Nat) ≤ (r : Nat) then
                    (Val.sampleOne⁻¹ - (Val.visible_covariance Val.staleState5)⁻¹)
                      ⟨(r : Nat) - 0, by have := r.isLt; omega⟩ j
                  else Val.staleState5.covarianceGrad b r j
              else Val.staleState5.covarianceGrad b } := rfl
    refine ⟨_, hstep, ?_⟩
    have hbuf : Val.gradBufferIndex (1 : Nat) = Val.gradBufferIndex Val.staleState5.numLayers := rfl
    dsimp only
    rw [if_pos hbuf]
    simp only [Matrix.of_apply]
    rw [dif_pos (Nat.zero_le _)]
    rw [Val.sampleOne_inv, Val.visible_staleState5, inv_one]
    simp
  · rw [Val.sampleTwo_inv, Val.visible_staleState5, inv_one]
    simp
    norm_num

/-- C5 witness: the gradient-seed property instantiated on the fresh state
(sample covariance `[[1]]`, empty caches, two layers). -/
theorem c5_gradient_seed_witness :
    ∃ s', Val.kullback_leibler_loss_backward Val.freshState = some s' ∧
      (∀ i j : Fin 1,
        s'.covarianceGrad (Val.gradBufferIndex Val.freshState.numLayers) (Fin.natAdd 0 i) j
          = (Val.sampleOne⁻¹ - (Val.visible_covariance Val.freshState)⁻¹) i j) ∧
      (∀ b : Fin 2, b ≠ Val.gradBufferIndex Val.freshState.numLayers →
        s'.covarianceGrad b = Val.freshState.covarianceGrad b) ∧
      (∀ (r : Fin (0 + 1)) (j : Fin 1), (r : Nat) < 0 →
        s'.covarianceGrad (Val.gradBufferIndex Val.freshState.numLayers) r j
          = Val.freshState.covarianceGrad (Val.gradBufferIndex Val.freshState.numLayers) r j) ∧
      s'.covariance = Val.freshState.covariance :=
  Val.c5_gradient_seed Val.freshState Val.sampleOne rfl (Or.inl rfl)

/-! ## Claim theorems: shapes and error behavior -/

/-- C2 counterexample: constructing the solver from a 2 × 1 structure (one
latent, one visible node) succeeds and the covariance buffer it owns has
shape `[2, 1]` — the shape of `zeros_like(weights)` — not the `(L+V) × (L+V)
= [2, 2]` square matrix the claim states. -/
theorem c2_shape_counterexample :
    Except.map Shape.SolverDesc.covarianceDims
      (Shape.init_parameters ⟨[2, 1], true⟩ none Shape.TorchDtype.float).1
      = Except.ok [2, 1] ∧
    ([2, 1] : List Nat) ≠ [2, 2] := by
  constructor
  · rfl
  · decide

/-- C2 (amended): for every valid construction the covariance buffer has the
structure's shape `(L+V) × V` (not `(L+V) × (L+V)`), the visible covariance
is its `V × V` block of visible rows, and — as a view — reading entry
`(i, j)` of the visible covariance reads entry `(L+i, j)` of the same
backing storage, so a write through the full buffer is visible through the
view. -/
theorem c2_cov_shape_view :
    (∀ (a b : Nat) (params : Option Shape.TensorDesc) (dt : Shape.TorchDtype)
      (cuda : Bool), cuda = true → b ≤ a → 0 < b →
      (dt = Shape.TorchDtype.float ∨ dt = Shape.TorchDtype.double) →
      Shape.optNumel params = 0 →
      ∃ sol, (Shape.init_parameters ⟨[a, b], cuda⟩ params dt).1 = Except.ok sol ∧
        sol.covarianceDims = [a, b] ∧ sol.visibleCovarianceDims = [b, b] ∧
        sol.covarianceGradDims = [2, a, b] ∧ sol.visibleCovarianceGradDims = [2, b, b]) ∧
    (∀ (L V : Nat) (s : Val.SolverState L V) (i j : Fin V),
      Val.visible_covariance s i j = s.covariance (Fin.natAdd L i) j) ∧
    (∀ (L V : Nat) (s : Val.SolverState L V) (i j : Fin V) (x : ℝ),
      Val.visible_covariance (Val.updateCovariance s (Fin.natAdd L i) j x) i j = x) := by
  refine ⟨?_, ?_, ?_⟩
  · intro a b params dt cuda hcuda hba hb hdt hparams
    subst hcuda
    have hsz1 : Shape.TensorDesc.size ⟨[a, b], true⟩ 1 = Except.ok b := rfl
    have hsz0 : Shape.TensorDesc.size ⟨[a, b], true⟩ 0 = Except.ok a := rfl
    have hne : Shape.TensorDesc.numel ⟨[a, b], true⟩ ≠ 0 := by
      simp [Shape.TensorDesc.numel]
      omega
    have hnba : ¬(a < b) := by omega
    have hndt : ¬(dt ≠ Shape.TorchDtype.float ∧ dt ≠ Shape.TorchDtype.double) := by
      rcases hdt with h | h <;> simp [h]
    have hnpar : ¬(Shape.optNumel params ≠ 0 ∧ Shape.optDims params ≠ [a, b]) := by
      simp [hparams]
    have key : (Shape.init_parameters ⟨[a, b], true⟩ params dt).1 = Except.ok
        { visibleSize := b
          latentSize := a - b
          dtype := dt
          weightsDims := [a, b]
          covarianceDims := [a, b]
          visibleCovarianceDims := [b, b]
          covarianceGradDims := [2, a, b]
          visibleCovarianceGradDims := [2, b, b]
          sampleCovarianceDims := none } := by
      unfold Shape.init_parameters
      rw [hsz1, hsz0]
      simp only [if_neg hne, if_neg hnba, if_neg hndt, if_neg hnpar]
      rfl
    exact ⟨_, key, rfl, rfl, rfl, rfl⟩
  · intro L V s i j
    rfl
  · intro L V s i j x
    unfold Val.visible_covariance Val.updateCovariance
    simp

/-- C2 witness: the shape facts instantiated on the 2 × 1 structure, and the
view facts on the fresh concrete state. -/
theorem c2_cov_shape_view_witness :
    (∃ sol, (Shape.init_parameters ⟨[3, 2], true⟩ none Shape.TorchDtype.double).1
        = Except.ok sol ∧
      sol.covarianceDims = [3, 2] ∧ sol.visibleCovarianceDims = [2, 2] ∧
      sol.covarianceGradDims = [2, 3, 2] ∧ sol.visibleCovarianceGradDims = [2, 2, 2]) ∧
    Val.visible_covariance Val.freshState 0 0 = Val.freshState.covariance (Fin.natAdd 0 0) 0 ∧
    Val.visible_covariance
      (Val.updateCovariance Val.freshState (Fin.natAdd 0 0) 0 (5 : ℝ)) 0 0 = 5 :=
  ⟨c2_cov_shape_view.1 3 2 none Shape.TorchDtype.double true rfl (by omega) (by omega)
      (Or.inr rfl) rfl,
    c2_cov_shape_view.2.1 0 1 Val.freshState 0 0,
    c2_cov_shape_view.2.2 0 1 Val.freshState 0 0 5⟩

/-- C7 counterexample: a 1-dimensional structure tensor makes the constructor
query `structure.size(1)` (line 71) before the dimensionality `TORCH_CHECK`
of line 78 can run, so the error raised is a dimension-out-of-range index
error, not the invalid-argument error the claim states. -/
theorem c7_error_counterexample :
    Shape.init_parameters ⟨[3], true⟩ none Shape.TorchDtype.float
      = (Except.error Shape.TorchErr.dimOutOfRange, []) ∧
    Shape.TorchErr.dimOutOfRange ≠ Shape.TorchErr.invalidArgument := by
  constructor
  · rfl
  · decide

/-- C7 (amended): every constructor violation — non-CUDA structure tensor,
wrong dimensionality, empty structure, more visible than total nodes,
unsupported precision, mismatched parameters — and every
`set_sample_covariance` violation is reported synchronously, before any
buffer allocation (the constructor's event trace stays empty), and with no
solver-state mutation (`set_sample_covariance` returns the state unchanged).
All such violations raise invalid-argument, except a structure of dimension
< 2, which raises a dimension-out-of-range index error from the `size(1)`
query that precedes every `TORCH_CHECK`, the device check included. -/
theorem c7_error_behaviour :
    (∀ (str : Shape.TensorDesc) (params : Option Shape.TensorDesc) (dt : Shape.TorchDtype),
      (str.isCuda = false ∨ str.dims.length ≠ 2 ∨ str.numel = 0
        ∨ (∃ a b, str.dims = [a, b] ∧ a < b)
        ∨ dt = Shape.TorchDtype.half
        ∨ (Shape.optNumel params ≠ 0 ∧ Shape.optDims params ≠ str.dims)) →
      Shape.init_parameters str params dt
        = (Except.error (if str.dims.length < 2 then Shape.TorchErr.dimOutOfRange
            else Shape.TorchErr.invalidArgument), [])) ∧
    (∀ (s : Shape.SolverDesc) (sc : Shape.TensorDesc),
      (sc.dims.length ≠ 2 ∨ sc.dims.getD 0 0 ≠ sc.dims.getD 1 0
        ∨ sc.dims.getD 0 0 ≠ s.visibleSize) →
      Shape.set_sample_covariance s sc
        = (Except.error Shape.TorchErr.invalidArgument, s)) := by
  constructor
  · rintro ⟨dims, cuda⟩ params dt hviol
    cases cuda with
    | false =>
        rcases dims with _ | ⟨a, _ | ⟨b, rest⟩⟩
        · rfl
        · rfl
        · -- dims = a :: b :: rest with the device check failing first
          have hsz1 : Shape.TensorDesc.size ⟨a :: b :: rest, false⟩ 1 = Except.ok b := by
            have h1 : 1 < (a :: b :: rest).length := by
              simp only [List.length_cons]
              omega
            unfold Shape.TensorDesc.size
            rw [dif_pos h1]
            rfl
          have hsz0 : Shape.TensorDesc.size ⟨a :: b :: rest, false⟩ 0 = Except.ok a := by
            have h0 : 0 < (a :: b :: rest).length := by
              simp only [List.length_cons]
              omega
            unfold Shape.TensorDesc.size
            rw [dif_pos h0]
            rfl
          unfold Shape.init_parameters
          rw [hsz1, hsz0]
          dsimp only
          have hr : ¬((a :: b :: rest).length < 2) := by
            simp only [List.length_cons]
            omega
          rw [if_neg hr]
          rw [if_pos (rfl : (false : Bool) = false)]
    | true =>
        rcases dims with _ | ⟨a, _ | ⟨b, _ | ⟨c, rest⟩⟩⟩
        · rfl
        · rfl
        · -- dims = [a, b]
          have hsz1 : Shape.TensorDesc.size ⟨[a, b], true⟩ 1 = Except.ok b := rfl
          have hsz0 : Shape.TensorDesc.size ⟨[a, b], true⟩ 0 = Except.ok a := rfl
          unfold Shape.init_parameters
          rw [hsz1, hsz0]
          dsimp only
          have hr : ¬(([a, b] : List Nat).length < 2) := by simp
          rw [if_neg hr]
          rw [if_neg (by simp : ¬(true = false))]
          rw [if_neg (by simp : ¬(([a, b] : List Nat).length ≠ 2))]
          by_cases hnum : Shape.TensorDesc.numel ⟨[a, b], true⟩ = 0
          · rw [if_pos hnum]
          · rw [if_neg hnum]
            by_cases hab : a < b
            · rw [if_pos hab]
            · rw [if_neg hab]
              by_cases hdt : dt ≠ Shape.TorchDtype.float ∧ dt ≠ Shape.TorchDtype.double
              · rw [if_pos hdt]
              · rw [if_neg hdt]
                have hpar : Shape.optNumel params ≠ 0 ∧ Shape.optDims params ≠ [a, b] := by
                  rcases hviol with h | h | h | h | h | h
                  · exact absurd h (by simp)
                  · exact absurd h (by simp)
                  · exact absurd h hnum
                  · obtain ⟨a2, b2, heq, hlt⟩ := h
                    dsimp only at heq
                    injection heq with h1 h2
                    injection h2 with h2 _
                    subst h1; subst h2
                    exact absurd hlt hab
                  · exact absurd ⟨by simp [h], by simp [h]⟩ hdt
                  · exact h
                rw [if_pos hpar]
        · -- dims = a :: b :: c :: rest, length ≥ 3
          have hsz1 : Shape.TensorDesc.size ⟨a :: b :: c :: rest, true⟩ 1 = Except.ok b := by
            have h1 : 1 < (a :: b :: c :: rest).length := by simp
            unfold Shape.TensorDesc.size
            rw [dif_pos h1]
            rfl
          have hsz0 : Shape.TensorDesc.size ⟨a :: b :: c :: rest, true⟩ 0 = Except.ok a := by
            have h0 : 0 < (a :: b :: c :: rest).length := by simp
            unfold Shape.TensorDesc.size
            rw [dif_pos h0]
            rfl
          unfold Shape.init_parameters
          rw [hsz1, hsz0]
          dsimp only
          have hr : ¬((a :: b :: c :: rest).length < 2) := by
            simp only [List.length_cons]
            omega
          rw [if_neg hr]
          rw [if_neg (by simp : ¬(true = false))]
          rw [if_pos (by simp : (a :: b :: c :: rest).length ≠ 2)]
  · rintro s ⟨dims, cuda⟩ hviol
    unfold Shape.set_sample_covariance
    dsimp only at hviol ⊢
    by_cases hlen : dims.length ≠ 2
    · rw [if_pos hlen]
    · rw [if_neg hlen]
      by_cases hsq : dims.getD 0 0 ≠ dims.getD 1 0
      · rw [if_pos hsq]
      · rw [if_neg hsq]
        have hvs : dims.getD 0 0 ≠ s.visibleSize := by
          rcases hviol with h | h | h
          · exact absurd h hlen
          · exact absurd h hsq
          · exact h
        rw [if_pos hvs]

/-- C7 witness: the amended error behavior at concrete inputs — a 3 × 3
structure on a CUDA device with half precision is rejected with
invalid-argument before any allocation, a 3 × 3 structure on a non-CUDA
device is rejected with invalid-argument as well, and a 2 × 3 sample
covariance is rejected by `set_sample_covariance` with the solver
unchanged. -/
theorem c7_error_behaviour_witness :
    Shape.init_parameters ⟨[3, 3], true⟩ none Shape.TorchDtype.half
      = (Except.error (if ([3, 3] : List Nat).length < 2 then Shape.TorchErr.dimOutOfRange
          else Shape.TorchErr.invalidArgument), []) ∧
    Shape.init_parameters ⟨[3, 3], false⟩ none Shape.TorchDtype.float
      = (Except.error (if ([3, 3] : List Nat).length < 2 then Shape.TorchErr.dimOutOfRange
          else Shape.TorchErr.invalidArgument), []) ∧
    Shape.set_sample_covariance
      { visibleSize := 3, latentSize := 0, dtype := Shape.TorchDtype.float,
        weightsDims := [3, 3], covarianceDims := [3, 3],
        visibleCovarianceDims := [3, 3], covarianceGradDims := [2, 3, 3],
        visibleCovarianceGradDims := [2, 3, 3], sampleCovarianceDims := none }
      ⟨[2, 3], true⟩
      = (Except.error Shape.TorchErr.invalidArgument,
        { visibleSize := 3, latentSize := 0, dtype := Shape.TorchDtype.float,
          weightsDims := [3, 3], covarianceDims := [3, 3],
          visibleCovarianceDims := [3, 3], covarianceGradDims := [2, 3, 3],
          visibleCovarianceGradDims := [2, 3, 3], sampleCovarianceDims := none }) :=
  ⟨c7_error_behaviour.1 ⟨[3, 3], true⟩ none Shape.TorchDtype.half
      (Or.inr (Or.inr (Or.inr (Or.inr (Or.inl rfl))))),
    c7_error_behaviour.1 ⟨[3, 3], false⟩ none Shape.TorchDtype.float (Or.inl rfl),
    c7_error_behaviour.2 _ ⟨[2, 3], true⟩ (Or.inr (Or.inl (by decide)))⟩

end SEMNAN
